import Mathlib

/-!
Verification of the clone-audit core pipeline (crawl → extract → compare).

The definitions below are a shallow embedding of the repository's Python
sources (`clone_audit/utils.py`, `clone_audit/config.py`,
`clone_audit/core/models.py`, `clone_audit/core/comparer.py`,
`clone_audit/scorer.py`, `clone_audit/crawler.py`).  Python floats are
modelled as exact rationals (ℚ), Python `str` as Lean `String` processed
through `String.data : List Char`, Python sets as `Finset`/lists, and
Python dicts as association lists that preserve insertion order.  External
collaborators (the HTTP session, BeautifulSoup link extraction and
`urllib.parse.urljoin`) are abstracted as parameters of a `Site` structure;
everything else is translated function-by-function from the source.

Standard-library helpers used by the source (`urllib.parse.urlparse` /
`urlunparse`, `difflib.SequenceMatcher`, `str.strip` / `str.lower`,
`re.findall` tokenisation, `int(·, 16)`) are embedded as well, restricted
to ASCII text and to plain hexadecimal literals (the exotic acceptances of
CPython — unicode case folding, `0x` prefixes, underscores, surrounding
whitespace in `int`, and control-character sanitisation in `urlsplit` —
are outside every input the program and the spec exercise).
-/

/-! ### ASCII character helpers (CPython `str` semantics, ASCII fragment) -/

/-- ASCII lowercase conversion: CPython `str.lower()` restricted to ASCII. -/
def pyLower (c : Char) : Char :=
  if 'A' ≤ c ∧ c ≤ 'Z' then Char.ofNat (c.toNat + 32) else c

/-- ASCII alphabetic test (`c.isascii() and c.isalpha()` in CPython). -/
def isAsciiAlpha (c : Char) : Bool :=
  ('a' ≤ c ∧ c ≤ 'z') ∨ ('A' ≤ c ∧ c ≤ 'Z')

/-- ASCII digit test. -/
def isAsciiDigit (c : Char) : Bool :=
  '0' ≤ c ∧ c ≤ '9'

/-- Python whitespace as stripped by `str.strip()` (ASCII fragment). -/
def isPySpace (c : Char) : Bool :=
  c = ' ' ∨ c = Char.ofNat 9 ∨ c = Char.ofNat 10 ∨ c = Char.ofNat 11 ∨
    c = Char.ofNat 12 ∨ c = Char.ofNat 13

/-- CPython `str.strip()` on a character list: drop whitespace at both ends. -/
def pyStrip (l : List Char) : List Char :=
  ((l.dropWhile isPySpace).reverse.dropWhile isPySpace).reverse

/-- Word characters of the regex class `[\w']` used by `tokenize_text`
(ASCII fragment of `\w`, plus the apostrophe). -/
def isTokenChar (c : Char) : Bool :=
  isAsciiAlpha c ∨ isAsciiDigit c ∨ c = '_' ∨ c = Char.ofNat 39

/-- Scanner behind `re.findall(r"[\w']+", value)`: maximal runs of token
characters, in order.  `cur` holds the current run reversed. -/
def tokenRuns : List Char → List Char → List (List Char)
  | [], cur => if cur = [] then [] else [cur.reverse]
  | c :: cs, cur =>
    if isTokenChar c then tokenRuns cs (c :: cur)
    else if cur = [] then tokenRuns cs []
    else cur.reverse :: tokenRuns cs []

/-- `utils.tokenize_text`: `[token.lower() for token in re.findall(r"[\w']+", value)]`. -/
def tokenize_text (value : String) : List String :=
  (tokenRuns value.data []).map (fun run => String.mk (run.map pyLower))

/-! ### Hexadecimal parsing, popcount and `utils.hamming_distance` -/

/-- Value of one hexadecimal digit, if the character is one. -/
def hexDigitVal (c : Char) : Option Nat :=
  if isAsciiDigit c then some (c.toNat - '0'.toNat)
  else if 'a' ≤ c ∧ c ≤ 'f' then some (c.toNat - 'a'.toNat + 10)
  else if 'A' ≤ c ∧ c ≤ 'F' then some (c.toNat - 'A'.toNat + 10)
  else none

/-- CPython `int(s, 16)` restricted to plain nonempty hexadecimal literals:
`none` models the `ValueError` raised on anything else. -/
def hexVal : List Char → Option Nat
  | [] => none
  | [c] => hexDigitVal c
  | c :: cs =>
    match hexDigitVal c, hexVal cs with
    | some d, some v => some (d * 16 ^ cs.length + v)
    | _, _ => none

/-- Fuelled binary popcount; `fuel ≥ n` makes it total (see `popcount`). -/
def popcountGo : Nat → Nat → Nat
  | 0, _ => 0
  | _ + 1, 0 => 0
  | fuel + 1, n + 1 => popcountGo fuel ((n + 1) / 2) + (n + 1) % 2

/-- `int.bit_count()`: number of ones in the binary representation. -/
def popcount (n : Nat) : Nat := popcountGo n n

/-- `utils.hamming_distance`: length-mismatched hashes raise `ValueError`
(`.error`), otherwise the popcount of the xor of the two hex values.
A non-hex string also raises `ValueError` inside `int(·, 16)`. -/
def hamming_distance (hash_a hash_b : String) : Except String Nat :=
  if hash_a.data.length ≠ hash_b.data.length then .error "Hash lengths must match"
  else
    match hexVal hash_a.data with
    | none => .error "invalid literal for int with base 16"
    | some a_int =>
      match hexVal hash_b.data with
      | none => .error "invalid literal for int with base 16"
      | some b_int => .ok (popcount (a_int ^^^ b_int))

/-! ### `urllib.parse` embedding (`urlparse`, `urlunparse`) -/

/-- Split a character list at the first occurrence of `c`
(`str.split(c, 1)` / `str.find(c)`). -/
def splitFirst (c : Char) : List Char → Option (List Char × List Char)
  | [] => none
  | x :: xs =>
    if x = c then some ([], xs)
    else match splitFirst c xs with
      | none => none
      | some (pre, post) => some (x :: pre, post)

/-- Characters allowed in a URL scheme after the first letter
(`urllib.parse.scheme_chars`). -/
def isSchemeChar (c : Char) : Bool :=
  isAsciiAlpha c ∨ isAsciiDigit c ∨ c = '+' ∨ c = '-' ∨ c = '.'

/-- The result record of `urllib.parse.urlparse`. -/
structure UrlParts where
  scheme : List Char
  netloc : List Char
  path : List Char
  params : List Char
  query : List Char
  fragment : List Char
deriving Repr, DecidableEq

/-- Scheme recognition step of `urlsplit`: split at the first `':'` and
accept the prefix as a scheme when it is a letter followed by scheme
characters; the scheme is lowercased by `urlsplit` itself. -/
def splitScheme (url : List Char) : List Char × List Char :=
  match splitFirst ':' url with
  | none => ([], url)
  | some (pre, post) =>
    match pre with
    | [] => ([], url)
    | c :: rest =>
      if isAsciiAlpha c ∧ rest.all isSchemeChar then ((c :: rest).map pyLower, post)
      else ([], url)

/-- `_splitnetloc`: the netloc extends to the first `'/'`, `'?'` or `'#'`. -/
def netlocSpan (l : List Char) : List Char × List Char :=
  (l.takeWhile (fun c => ¬(c = '/' ∨ c = '?' ∨ c = '#')),
   l.dropWhile (fun c => ¬(c = '/' ∨ c = '?' ∨ c = '#')))

/-- `_splitparams`: split `';'` parameters off the last path segment. -/
def splitParams (path : List Char) : List Char × List Char :=
  let revSeg := path.reverse.takeWhile (· ≠ '/')
  let stem := path.take (path.length - revSeg.length)
  match splitFirst ';' revSeg.reverse with
  | none => (path, [])
  | some (pre, post) => (stem ++ pre, post)

/-- `urllib.parse.urlparse` (control-character sanitisation omitted:
all URLs handled here are printable ASCII). -/
def urlparse (url : String) : UrlParts :=
  let (scheme, rest) := splitScheme url.data
  let (netloc, rest) :=
    if rest.take 2 = ['/', '/'] then netlocSpan (rest.drop 2) else ([], rest)
  let (rest, fragment) :=
    match splitFirst '#' rest with
    | none => (rest, [])
    | some (pre, post) => (pre, post)
  let (rest, query) :=
    match splitFirst '?' rest with
    | none => (rest, [])
    | some (pre, post) => (pre, post)
  let (path, params) :=
    if ';' ∈ rest then splitParams rest else (rest, [])
  ⟨scheme, netloc, path, params, query, fragment⟩

/-- `urllib.parse.urlunsplit`. -/
def urlunsplit (scheme netloc url query fragment : List Char) : List Char :=
  let url :=
    if netloc ≠ [] ∨ url.take 2 = ['/', '/'] then
      '/' :: '/' :: netloc ++ (if url ≠ [] ∧ url.take 1 ≠ ['/'] then '/' :: url else url)
    else url
  let url := if scheme ≠ [] then scheme ++ ':' :: url else url
  let url := if query ≠ [] then url ++ '?' :: query else url
  if fragment ≠ [] then url ++ '#' :: fragment else url

/-- `urllib.parse.urlunparse`. -/
def urlunparse (p : UrlParts) : List Char :=
  let url := if p.params ≠ [] then p.path ++ ';' :: p.params else p.path
  urlunsplit p.scheme p.netloc url p.query p.fragment

/-! ### `utils.py` URL helpers -/

/-- `utils.normalize_url`: lowercase scheme (defaulting to `http`) and host,
default an empty path to `/`, drop params, keep the query, and strip the
fragment unless told otherwise. -/
def normalize_url (url : String) (remove_fragment : Bool := true) : String :=
  let parsed := urlparse url
  let scheme := let s := parsed.scheme.map pyLower; if s = [] then "http".data else s
  let netloc := parsed.netloc.map pyLower
  let path := if parsed.path = [] then ['/'] else parsed.path
  let fragment := if remove_fragment then [] else parsed.fragment
  String.mk (urlunparse ⟨scheme, netloc, path, [], parsed.query, fragment⟩)

/-- `utils.canonical_path`: path (defaulting to `/`) plus `?query` when the
query is nonempty; host and fragment are dropped. -/
def canonical_path (url : String) : String :=
  let parsed := urlparse url
  let path := if parsed.path = [] then ['/'] else parsed.path
  String.mk (if parsed.query ≠ [] then path ++ '?' :: parsed.query else path)

/-- `utils.is_same_domain`: equality of lowercased hosts. -/
def is_same_domain (url root : String) : Bool :=
  (urlparse url).netloc.map pyLower = (urlparse root).netloc.map pyLower

/-- `utils.is_html_content`: an absent or empty `Content-Type` counts as
HTML; otherwise the lowercased, stripped prefix before `;` must be
`text/html` or `application/xhtml+xml`. -/
def is_html_content (content_type : Option String) : Bool :=
  match content_type with
  | none => true
  | some ct =>
    if ct = "" then true
    else
      let head := (pyStrip (ct.data.takeWhile (· ≠ ';'))).map pyLower
      head = "text/html".data ∨ head = "application/xhtml+xml".data

example : tokenize_text "Hello, Clone Auditor!" = ["hello", "clone", "auditor"] := by decide
example : hamming_distance "ffffffffffffffff" "ffffffffffffffff" = .ok 0 := rfl
example : hamming_distance "f0" "f1" = .ok 1 := rfl
example : hamming_distance "ff" "f" = .error "Hash lengths must match" := rfl
example : normalize_url "HTTP://Example.COM/foo#section" = "http://example.com/foo" := by decide
example : canonical_path "https://example.com/path?a=1" = "/path?a=1" := by decide
example : canonical_path "https://legit" = "/" := by decide
example : is_html_content (some "text/html; charset=utf-8") = true := by decide
example : is_html_content (some "image/png") = false := by decide

/-! ### `difflib.SequenceMatcher` embedding (`ratio`, `quick_ratio`)

`SequenceMatcher(None, a, b)` is used by `_compare_text` with `isjunk`
absent, so the junk set is empty and the junk-extension loops of
`find_longest_match` are no-ops; the autojunk "popular element" rule for
`len(b) >= 200` is kept.  Recursions are fuelled structurally; every fuel
argument passed below exceeds the maximal recursion depth of the original
algorithm, and `get_matching_blocks`'s sort-and-merge step is dropped
because only the *sum* of block sizes feeds `ratio`, and merging adjacent
blocks preserves that sum. -/

/-- `b2j`: ascending positions of a character in `b`, with the autojunk
rule deleting "popular" characters when `len(b) >= 200`. -/
def b2jOf (b : List Char) (c : Char) : List Nat :=
  if b.length ≥ 200 ∧ b.count c > b.length / 100 + 1 then []
  else (List.range b.length).filter (fun j => b.get? j = some c)

/-- Inner loop of `find_longest_match`: scan the positions of `a[i]` in
`b`, chaining diagonal run lengths through `j2len` (previous row) into
`newj2len` (current row), and track the first longest run. -/
def flmInner (j2len : Nat → Nat) (i blo bhi : Nat) :
    List Nat → (Nat → Nat) → Nat × Nat × Nat → (Nat → Nat) × (Nat × Nat × Nat)
  | [], newj2len, best => (newj2len, best)
  | j :: js, newj2len, best =>
    if j < blo then flmInner j2len i blo bhi js newj2len best
    else if j ≥ bhi then (newj2len, best)
    else
      let k := (if j = 0 then 0 else j2len (j - 1)) + 1
      let newj2len' := fun x => if x = j then k else newj2len x
      let best' := if k > best.2.2 then (i + 1 - k, j + 1 - k, k) else best
      flmInner j2len i blo bhi js newj2len' best'

/-- Outer loop of `find_longest_match` over the rows `i ∈ [alo, ahi)`. -/
def flmRows (a : List Char) (b2j : Char → List Nat) (blo bhi : Nat) :
    List Nat → (Nat → Nat) → Nat × Nat × Nat → Nat × Nat × Nat
  | [], _, best => best
  | i :: is, j2len, best =>
    let row := match a.get? i with | some c => b2j c | none => []
    let (nj, best') := flmInner j2len i blo bhi row (fun _ => 0) best
    flmRows a b2j blo bhi is nj best'

/-- Equality of two optional characters that fails when either is absent
(both indices are in range whenever the extension loops fire). -/
def chEq : Option Char → Option Char → Bool
  | some x, some y => x = y
  | _, _ => false

/-- Leftward extension of the best block over equal characters
(the junk set is empty, so the only guard is character equality). -/
def extendLow (a b : List Char) (alo blo : Nat) :
    Nat → Nat × Nat × Nat → Nat × Nat × Nat
  | 0, best => best
  | fuel + 1, (bi, bj, bs) =>
    if alo < bi ∧ blo < bj ∧ chEq (a.get? (bi - 1)) (b.get? (bj - 1)) then
      extendLow a b alo blo fuel (bi - 1, bj - 1, bs + 1)
    else (bi, bj, bs)

/-- Rightward extension of the best block over equal characters. -/
def extendHigh (a b : List Char) (ahi bhi : Nat) :
    Nat → Nat × Nat × Nat → Nat × Nat × Nat
  | 0, best => best
  | fuel + 1, (bi, bj, bs) =>
    if bi + bs < ahi ∧ bj + bs < bhi ∧ chEq (a.get? (bi + bs)) (b.get? (bj + bs)) then
      extendHigh a b ahi bhi fuel (bi, bj, bs + 1)
    else (bi, bj, bs)

/-- `SequenceMatcher.find_longest_match` on `a[alo:ahi]` / `b[blo:bhi]`. -/
def findLongestMatch (a b : List Char) (b2j : Char → List Nat)
    (alo ahi blo bhi : Nat) : Nat × Nat × Nat :=
  let best := flmRows a b2j blo bhi (List.range' alo (ahi - alo)) (fun _ => 0) (alo, blo, 0)
  extendHigh a b ahi bhi (ahi + bhi) (extendLow a b alo blo (ahi + bhi) best)

/-- Sum of matching-block sizes produced by `get_matching_blocks`'s
divide-and-conquer on the longest match (sorting and merging adjacent
blocks do not change the sum). -/
def matchingSum (a b : List Char) (b2j : Char → List Nat) :
    Nat → Nat → Nat → Nat → Nat → Nat
  | 0, _, _, _, _ => 0
  | fuel + 1, alo, ahi, blo, bhi =>
    let (i, j, k) := findLongestMatch a b b2j alo ahi blo bhi
    if k = 0 then 0
    else
      k + (if alo < i ∧ blo < j then matchingSum a b b2j fuel alo i blo j else 0)
        + (if i + k < ahi ∧ j + k < bhi then matchingSum a b b2j fuel (i + k) ahi (j + k) bhi else 0)

/-- `difflib._calculate_ratio`. -/
def calcRatio (nmatched length : Nat) : ℚ :=
  if length ≠ 0 then 2 * (nmatched : ℚ) / (length : ℚ) else 1

/-- `SequenceMatcher(None, a, b).ratio()`. -/
def ratioOf (a b : String) : ℚ :=
  let la := a.data.length
  let lb := b.data.length
  calcRatio (matchingSum a.data b.data (b2jOf b.data) (la + lb + 1) 0 la 0 lb) (la + lb)

/-- Loop of `quick_ratio`: an element of `a` matches while `b` still has
unconsumed copies of it (`avail` bookkeeping, tracked here as a count of
consumed copies per character). -/
def quickRatioLoop (bcount : Char → Nat) :
    List Char → (Char → Nat) → Nat → Nat
  | [], _, acc => acc
  | c :: cs, used, acc =>
    let numbPos := bcount c > used c
    quickRatioLoop bcount cs (fun x => if x = c then used x + 1 else used x)
      (if numbPos then acc + 1 else acc)

/-- `SequenceMatcher(None, a, b).quick_ratio()`. -/
def quickRatioOf (a b : String) : ℚ :=
  calcRatio (quickRatioLoop (fun c => b.data.count c) a.data (fun _ => 0) 0)
    (a.data.length + b.data.length)

/-! ### Data model (`core/models.py`) and configuration (`config.py`)

`fetched_at` (a wall-clock timestamp) and `preview_bytes` (an opaque blob
produced by the extractor, never read by the comparer) are external
concerns and are not modelled. -/

/-- `models.PageSnapshot`. -/
structure PageSnapshot where
  url : String
  depth : Nat
  status_code : Nat
  html : String
  content_type : Option String
  discovered_urls : List String := []
  error : Option String := none
deriving Repr, DecidableEq

/-- `models.TextArtifact`. -/
structure TextArtifact where
  page_url : String
  locator : String
  text : String
  token_count : Nat
  tokens : List String := []
deriving Repr, DecidableEq

/-- `TextArtifact.snippet`: `self.text[:length].strip()`. -/
def TextArtifact.snippet (a : TextArtifact) (length : Nat := 200) : String :=
  String.mk (pyStrip (a.text.data.take length))

/-- `models.ImageArtifact`. -/
structure ImageArtifact where
  page_url : String
  url : String
  hash_bits : Option String
  bytes_size : Option Nat
  content_type : Option String
deriving Repr, DecidableEq

/-- `models.StructureSignature`. -/
structure StructureSignature where
  page_url : String
  depth : Nat
  tag_sequence : List String
deriving Repr, DecidableEq

/-- `models.CrawlResult`. -/
structure CrawlResult where
  root_url : String
  snapshots : List PageSnapshot
  errors : List String := []
deriving Repr, DecidableEq

/-- `models.SiteArtifacts`. -/
structure SiteArtifacts where
  crawl : CrawlResult
  texts : List TextArtifact := []
  images : List ImageArtifact := []
  structures : List StructureSignature := []
deriving Repr, DecidableEq

/-- `models.TextMatch`. -/
structure TextMatch where
  base : TextArtifact
  clone : TextArtifact
  similarity : ℚ
  high_confidence : Bool
deriving Repr, DecidableEq

/-- `models.ImageMatch`. -/
structure ImageMatch where
  base : ImageArtifact
  clone : ImageArtifact
  hamming_dist : Nat
  similarity : ℚ
deriving Repr, DecidableEq

/-- `models.StructureMatch`. -/
structure StructureMatch where
  base : StructureSignature
  clone : StructureSignature
  similarity : ℚ
deriving Repr, DecidableEq

/-- `models.SimilarityBreakdown`. -/
structure SimilarityBreakdown where
  text_score : ℚ
  image_score : ℚ
  structure_score : ℚ
  overall_score : ℚ
deriving Repr, DecidableEq

/-- `models.ComparisonResult`. -/
structure ComparisonResult where
  base : SiteArtifacts
  clone : SiteArtifacts
  text_matches : List TextMatch
  image_matches : List ImageMatch
  structure_matches : List StructureMatch
  breakdown : SimilarityBreakdown
deriving Repr, DecidableEq

/-- `config.CrawlConfig` (the user-agent string is irrelevant to the
properties proved here and is kept only for shape). -/
structure CrawlConfig where
  base_url : String
  max_pages : Nat := 50
  max_depth : Nat := 2
  delay_seconds : ℚ := 1/2
  timeout : ℚ := 10
  same_domain_only : Bool := true
  user_agent : String := "Mozilla/5.0"
  page_concurrency : Nat := 1
deriving Repr, DecidableEq

/-- `config.ComparisonConfig` (float defaults as exact rationals). -/
structure ComparisonConfig where
  text_threshold : ℚ := 3/4
  high_confidence_threshold : ℚ := 19/20
  image_hash_threshold : Nat := 10
  structure_threshold : ℚ := 3/5
  weight_text : ℚ := 2/5
  weight_images : ℚ := 2/5
  weight_structure : ℚ := 1/5
  top_match_limit : Nat := 10
deriving Repr, DecidableEq

/-- `ComparisonConfig.normalised_weights`. -/
def normalised_weights (cfg : ComparisonConfig) : ℚ × ℚ × ℚ :=
  let total := cfg.weight_text + cfg.weight_images + cfg.weight_structure
  if total = 0 then (0, 0, 0)
  else (cfg.weight_text / total, cfg.weight_images / total, cfg.weight_structure / total)

/-- `scorer.ScoreAggregator.overall`. -/
def overallScore (cfg : ComparisonConfig) (text_score image_score structure_score : ℚ) : ℚ :=
  let (weight_text, weight_images, weight_structure) := normalised_weights cfg
  text_score * weight_text + image_score * weight_images + structure_score * weight_structure

example : ratioOf "abcd" "abcd" = 1 := by
  have h : matchingSum ['a','b','c','d'] ['a','b','c','d'] (b2jOf ['a','b','c','d']) 9 0 4 0 4 = 4 := by
    decide
  norm_num [ratioOf, calcRatio, h]

example : quickRatioOf "ab" "bc" = 1/2 := by
  have h : quickRatioLoop (fun c => List.count c ['b', 'c']) ['a', 'b'] (fun _ => 0) 0 = 1 := by
    decide
  norm_num [quickRatioOf, calcRatio, h]

/-! ### Text channel (`Comparer._compare_text`) -/

/-- One entry of `Comparer._prepare_text_entries`: the artifact, its token
sequence (stored tokens, or tokenised text when none are stored) and the
token set. -/
structure PreparedText where
  entry : TextArtifact
  tokens : List String
  tokenSet : Finset String
deriving DecidableEq

/-- `Comparer._prepare_text_entries`: drop artifacts that tokenise to
nothing. -/
def prepareTextEntries (entries : List TextArtifact) : List PreparedText :=
  entries.filterMap fun entry =>
    let tokens := if entry.tokens ≠ [] then entry.tokens else tokenize_text entry.text
    if tokens = [] then none else some ⟨entry, tokens, tokens.toFinset⟩

/-- Candidate scan of `_compare_text` within one token-length bucket:
token-overlap pre-filter (threshold 0.3), `quick_ratio` gate at 80% of the
text threshold, then the full `ratio`; keep the strictly best score. -/
def scanCandidates (cfg : ComparisonConfig) (base : PreparedText) :
    List PreparedText → Option TextArtifact × ℚ → Option TextArtifact × ℚ
  | [], best => best
  | cand :: rest, (bestClone, bestScore) =>
    let shared := (base.tokenSet ∩ cand.tokenSet).card
    if shared = 0 then scanCandidates cfg base rest (bestClone, bestScore)
    else
      let overlap : ℚ := (shared : ℚ) / (max base.tokenSet.card cand.tokenSet.card : ℚ)
      if overlap < 3/10 then scanCandidates cfg base rest (bestClone, bestScore)
      else if quickRatioOf base.entry.text cand.entry.text < cfg.text_threshold * (4/5) then
        scanCandidates cfg base rest (bestClone, bestScore)
      else
        let score := ratioOf base.entry.text cand.entry.text
        if score > bestScore then scanCandidates cfg base rest (some cand.entry, score)
        else scanCandidates cfg base rest (bestClone, bestScore)

/-- Loop of `_compare_text` over candidate token lengths; an empty bucket
is skipped (`continue`) before the 0.999 early-exit check. -/
def scanLengthBuckets (cfg : ComparisonConfig) (base : PreparedText)
    (preparedClone : List PreparedText) :
    List Nat → Option TextArtifact × ℚ → Option TextArtifact × ℚ
  | [], best => best
  | len :: lens, best =>
    let candidates := preparedClone.filter (fun c => c.tokens.length = len)
    if candidates = [] then scanLengthBuckets cfg base preparedClone lens best
    else
      let best' := scanCandidates cfg base candidates best
      if best'.2 ≥ 999/1000 then best'
      else scanLengthBuckets cfg base preparedClone lens best'

/-- Best clone counterpart of one base artifact: exact-text short-circuit
(`clone_exact`, insertion order = list order), otherwise the scan over the
token-length window `[max(1, n - max(3, n // 4)), n + max(3, n // 4)]`
(`int(length * 0.25)` is exact binary arithmetic, i.e. `n / 4`). -/
def bestTextMatch (cfg : ComparisonConfig) (preparedClone : List PreparedText)
    (base : PreparedText) : Option TextArtifact × ℚ :=
  match preparedClone.filter (fun c => c.entry.text = base.entry.text) with
  | c :: _ => (some c.entry, 1)
  | [] =>
    let length := base.tokens.length
    let window := max 3 (length / 4)
    let minLen := max 1 (length - window)
    let maxLen := length + window
    scanLengthBuckets cfg base preparedClone (List.range' minLen (maxLen + 1 - minLen)) (none, 0)

/-- Main accumulation loop of `_compare_text`: every base artifact adds its
best score to the running total; a reportable match is recorded when the
score meets the text threshold and its 160-character snippet pair is new. -/
def textScan (cfg : ComparisonConfig) (preparedClone : List PreparedText) :
    List PreparedText → List (String × String) → ℚ × List TextMatch
  | [], _ => (0, [])
  | base :: rest, seen =>
    let (bestClone, bestScore) := bestTextMatch cfg preparedClone base
    match bestClone with
    | some clone =>
      if bestScore ≥ cfg.text_threshold then
        let pairKey := (base.entry.snippet 160, clone.snippet 160)
        if pairKey ∈ seen then
          let (total, ms) := textScan cfg preparedClone rest seen
          (bestScore + total, ms)
        else
          let (total, ms) := textScan cfg preparedClone rest (pairKey :: seen)
          (bestScore + total,
            ⟨base.entry, clone, bestScore, decide (bestScore ≥ cfg.high_confidence_threshold)⟩ :: ms)
      else
        let (total, ms) := textScan cfg preparedClone rest seen
        (bestScore + total, ms)
    | none =>
      let (total, ms) := textScan cfg preparedClone rest seen
      (bestScore + total, ms)

/-- Stable descending insertion used to model CPython `list.sort(...,
reverse=True)` (stable sorts agree, so insertion sort is faithful):
`ge x y` must hold exactly when `x` may stay before `y`. -/
def insertDescBy (ge : α → α → Bool) (x : α) : List α → List α
  | [] => [x]
  | y :: ys => if ge x y then x :: y :: ys else y :: insertDescBy ge x ys

/-- Stable descending sort (see `insertDescBy`). -/
def sortDescBy (ge : α → α → Bool) : List α → List α
  | [] => []
  | x :: xs => insertDescBy ge x (sortDescBy ge xs)

/-- Sort key of `_compare_text`: `(similarity, min(token counts))`,
descending. -/
def textMatchGe (x y : TextMatch) : Bool :=
  x.similarity > y.similarity ∨
    (x.similarity = y.similarity ∧
      min x.base.token_count x.clone.token_count ≥ min y.base.token_count y.clone.token_count)

/-- Page-diversity reordering of `_compare_text`: first match per base page
URL is promoted, repeats overflow behind, order otherwise kept. -/
def curateTextMatches (seen : List String) :
    List TextMatch → List TextMatch × List TextMatch
  | [] => ([], [])
  | m :: ms =>
    if m.base.page_url ∈ seen then
      let (curated, overflow) := curateTextMatches seen ms
      (curated, m :: overflow)
    else
      let (curated, overflow) := curateTextMatches (m.base.page_url :: seen) ms
      (m :: curated, overflow)

/-- `Comparer._compare_text`. -/
def compareText (cfg : ComparisonConfig) (baseTexts cloneTexts : List TextArtifact) :
    ℚ × List TextMatch :=
  let preparedBase := prepareTextEntries baseTexts
  let preparedClone := prepareTextEntries cloneTexts
  if preparedBase = [] ∨ preparedClone = [] then (0, [])
  else
    let (total, ms) := textScan cfg preparedClone preparedBase []
    let sorted := sortDescBy textMatchGe ms
    let (curated, overflow) := curateTextMatches [] sorted
    (total / preparedBase.length, (curated ++ overflow).take cfg.top_match_limit)

/-! ### Image channel (`Comparer._compare_images`) -/

/-- Python truthiness of `img.hash_bits` (`None` and `""` are falsy). -/
def hasHash (img : ImageArtifact) : Bool :=
  match img.hash_bits with
  | some h => h ≠ ""
  | none => false

/-- The string actually passed to `hamming_distance` (the filter guarantees
a present hash). -/
def hashStr (img : ImageArtifact) : String :=
  img.hash_bits.getD ""

/-- `best.bytes_size or 0 if best else -1`: the byte count the image
tie-break compares against (`-1` before any candidate is held). -/
def bytesIntOpt : Option ImageArtifact → Int
  | some bi => (bi.bytes_size.getD 0 : Int)
  | none => -1

/-- Match-key fallback `hash_bits or url` used for image dedup. -/
def imageKey (img : ImageArtifact) : String :=
  match img.hash_bits with
  | some h => if h = "" then img.url else h
  | none => img.url

/-- Inner loop of `_compare_images`: smallest Hamming distance wins, ties
broken towards the larger byte size (`or 0` for absent sizes, `-1` before
any candidate is held); a `ValueError` pair is skipped. -/
def bestImageLoop (base : ImageArtifact) :
    List ImageArtifact → Option ImageArtifact × Nat → Option ImageArtifact × Nat
  | [], best => best
  | cand :: rest, (bestImg, bestDist) =>
    match hamming_distance (hashStr base) (hashStr cand) with
    | .error _ => bestImageLoop base rest (bestImg, bestDist)
    | .ok distance =>
      let bestBytes : Int := bytesIntOpt bestImg
      if distance < bestDist ∨
          (distance = bestDist ∧ (cand.bytes_size.getD 0 : Int) > bestBytes) then
        bestImageLoop base rest (some cand, distance)
      else bestImageLoop base rest (bestImg, bestDist)

/-- Main accumulation loop of `_compare_images`: the best similarity of
every base image joins the running total; a match is recorded only when the
distance is within the threshold and its key pair is new. -/
def imagesScan (cfg : ComparisonConfig) (cloneList : List ImageArtifact) :
    List ImageArtifact → List (String × String) → ℚ × List ImageMatch
  | [], _ => (0, [])
  | base :: rest, seen =>
    match bestImageLoop base cloneList (none, 64) with
    | (none, _) => imagesScan cfg cloneList rest seen
    | (some best, bestDist) =>
      let similarity : ℚ := 1 - (bestDist : ℚ) / 64
      if bestDist ≤ cfg.image_hash_threshold then
        let pairKey := (imageKey base, imageKey best)
        if pairKey ∈ seen then
          let (total, ms) := imagesScan cfg cloneList rest seen
          (similarity + total, ms)
        else
          let (total, ms) := imagesScan cfg cloneList rest (pairKey :: seen)
          (similarity + total, ⟨base, best, bestDist, similarity⟩ :: ms)
      else
        let (total, ms) := imagesScan cfg cloneList rest seen
        (similarity + total, ms)

/-- Sort key of `_compare_images`: `(similarity, max(byte sizes))`,
descending. -/
def imageMatchGe (x y : ImageMatch) : Bool :=
  x.similarity > y.similarity ∨
    (x.similarity = y.similarity ∧
      max (x.base.bytes_size.getD 0) (x.clone.bytes_size.getD 0) ≥
        max (y.base.bytes_size.getD 0) (y.clone.bytes_size.getD 0))

/-- `Comparer._compare_images`. -/
def compareImages (cfg : ComparisonConfig) (baseImages cloneImages : List ImageArtifact) :
    ℚ × List ImageMatch :=
  let baseList := baseImages.filter hasHash
  let cloneList := cloneImages.filter hasHash
  if baseList = [] ∨ cloneList = [] then (0, [])
  else
    let (total, ms) := imagesScan cfg cloneList baseList []
    (total / baseList.length, (sortDescBy imageMatchGe ms).take cfg.top_match_limit)

/-! ### Structure channel (`Comparer._compare_structure`) -/

/-- Update of a Python dict entry: first-insertion order preserved, later
values replace earlier ones. -/
def dictUpsert (key : String) (val : α) : List (String × α) → List (String × α)
  | [] => [(key, val)]
  | (k, v) :: rest =>
    if k = key then (key, val) :: rest else (k, v) :: dictUpsert key val rest

/-- The dict comprehension `{canonical_path(sig.page_url): sig for sig in
structures}`. -/
def structMap (structures : List StructureSignature) : List (String × StructureSignature) :=
  structures.foldl (fun m sig => dictUpsert (canonical_path sig.page_url) sig m) []

/-- `Comparer._jaccard_similarity` on the tag-name sets. -/
def jaccardSimilarity (seqA seqB : List String) : ℚ :=
  let setA := seqA.toFinset
  let setB := seqB.toFinset
  if setA = ∅ ∨ setB = ∅ then 0
  else
    let inter := (setA ∩ setB).card
    let union := (setA ∪ setB).card
    if union ≠ 0 then (inter : ℚ) / (union : ℚ) else 0

/-- Loop of `_compare_structure` over the base path map: paths absent from
the clone map are skipped; every matched path contributes one score. -/
def structureScan (cfg : ComparisonConfig) (cloneMap : List (String × StructureSignature)) :
    List (String × StructureSignature) → List ℚ × List StructureMatch
  | [] => ([], [])
  | (path, baseSig) :: rest =>
    match cloneMap.lookup path with
    | none => structureScan cfg cloneMap rest
    | some cloneSig =>
      let similarity := jaccardSimilarity baseSig.tag_sequence cloneSig.tag_sequence
      let (scores, ms) := structureScan cfg cloneMap rest
      (similarity :: scores,
        if similarity ≥ cfg.structure_threshold then ⟨baseSig, cloneSig, similarity⟩ :: ms else ms)

/-- Sort key of `_compare_structure`: similarity, descending. -/
def structureMatchGe (x y : StructureMatch) : Bool :=
  x.similarity ≥ y.similarity

/-- `Comparer._compare_structure`. -/
def compareStructure (cfg : ComparisonConfig)
    (baseStructures cloneStructures : List StructureSignature) :
    ℚ × List StructureMatch :=
  let baseMap := structMap baseStructures
  let cloneMap := structMap cloneStructures
  let (scores, ms) := structureScan cfg cloneMap baseMap
  let average := if scores ≠ [] then scores.sum / scores.length else 0
  (average, (sortDescBy structureMatchGe ms).take cfg.top_match_limit)

/-- `Comparer.compare`: the three channels plus the weighted aggregate. -/
def Comparer.compare (cfg : ComparisonConfig) (base clone : SiteArtifacts) :
    ComparisonResult :=
  let (text_score, text_matches) := compareText cfg base.texts clone.texts
  let (image_score, image_matches) := compareImages cfg base.images clone.images
  let (structure_score, structure_matches) := compareStructure cfg base.structures clone.structures
  let overall := overallScore cfg text_score image_score structure_score
  { base := base
    clone := clone
    text_matches := text_matches
    image_matches := image_matches
    structure_matches := structure_matches
    breakdown :=
      { text_score := text_score
        image_score := image_score
        structure_score := structure_score
        overall_score := overall } }

/-! ### Crawler (`crawler.py`)

The network session, BeautifulSoup link extraction and `urljoin` are
external collaborators; a `Site` bundles them: `fetch` returns either a
`requests.RequestException` message or `(status_code, content_type, body)`,
`hrefs` lists the `href` attribute values of `<a href=...>` tags of a
document, and `resolveRel` is `urljoin`.  `utils.sleep` only paces
requests and does not affect the returned data, so it has no counterpart
here. -/

/-- The crawler's external environment. -/
structure Site where
  fetch : String → Except String (Nat × Option String × String)
  hrefs : String → List String
  resolveRel : String → String → String

/-- `utils.resolve_url`: `None` for a falsy link, else `urljoin`. -/
def resolve_url (site : Site) (base_url link : String) : Option String :=
  if link = "" then none else some (site.resolveRel base_url link)

/-- Link discovery shared by both crawl modes: resolve each href against
the page, canonicalise, and apply the same-domain filter.  The serial mode
additionally drops already-visited links (`checkVisited`), the parallel
mode does not (its visited check happens at dequeue time). -/
def discoverLinks (cfg : CrawlConfig) (site : Site) (pageUrl html : String)
    (checkVisited : Option (List String)) : List String :=
  if html = "" then []
  else
    (site.hrefs html).filterMap fun href =>
      match resolve_url site pageUrl href with
      | none => none
      | some linkUrl =>
        let linkNormalized := normalize_url linkUrl
        if cfg.same_domain_only ∧ ¬is_same_domain linkNormalized cfg.base_url then none
        else
          match checkVisited with
          | some visited => if linkNormalized ∈ visited then none else some linkNormalized
          | none => some linkNormalized

/-- State of the serial crawl loop. -/
structure SerialState where
  queue : List (String × Nat)
  visited : List String
  snapshots : List PageSnapshot
  errors : List String
deriving Repr

/-- `Crawler._crawl_serial`'s `while` loop, fuelled (the loop terminates
because every enqueued URL stems from one of the finitely many fetched
pages; the bound properties hold for every fuel, hence for the terminating
run). -/
def crawlSerialGo (cfg : CrawlConfig) (site : Site) : Nat → SerialState → SerialState
  | 0, st => st
  | fuel + 1, st =>
    if st.queue ≠ [] ∧ st.snapshots.length < cfg.max_pages then
      match st.queue with
      | [] => st
      | (url, depth) :: rest =>
        let normalized := normalize_url url
        if normalized ∈ st.visited then
          crawlSerialGo cfg site fuel { st with queue := rest }
        else
          let visited := normalized :: st.visited
          if depth > cfg.max_depth then
            crawlSerialGo cfg site fuel { st with queue := rest, visited := visited }
          else
            match site.fetch normalized with
            | .error exc =>
              crawlSerialGo cfg site fuel
                { st with
                  queue := rest
                  visited := visited
                  errors := st.errors ++ [normalized ++ ": " ++ exc] }
            | .ok (status_code, content_type, body) =>
              let html := if is_html_content content_type then body else ""
              let discovered := discoverLinks cfg site normalized html (some visited)
              let snapshot : PageSnapshot :=
                { url := normalized
                  depth := depth
                  status_code := status_code
                  html := html
                  content_type := content_type
                  discovered_urls := discovered }
              crawlSerialGo cfg site fuel
                { queue := rest ++ discovered.map (fun l => (l, depth + 1))
                  visited := visited
                  snapshots := st.snapshots ++ [snapshot]
                  errors := st.errors }
    else st

/-- `Crawler._crawl_serial`. -/
def crawlSerial (cfg : CrawlConfig) (site : Site) (fuel : Nat) : CrawlResult :=
  let final := crawlSerialGo cfg site fuel ⟨[(cfg.base_url, 0)], [], [], []⟩
  { root_url := cfg.base_url, snapshots := final.snapshots, errors := final.errors }

/-! #### Parallel mode (`Crawler._crawl_parallel`)

The worker pool is modelled as a labelled transition system over the
shared state; each transition is one lock-protected (or thread-local)
section of the worker body, so every interleaving of the Python threads is
a path of the relation.  A worker is `idle` between iterations, `got`
after `work_queue.get`, `claimed` after the visited check-and-add, and
`fetched` while holding a built snapshot and the links not yet enqueued. -/

/-- Phase of one parallel worker. -/
inductive WPhase where
  | idle
  | got (url : String) (depth : Nat)
  | claimed (url : String) (depth : Nat)
  | fetched (snap : PageSnapshot) (pending : List (String × Nat))
  | done
deriving Repr, DecidableEq

/-- Shared state of the parallel crawl. -/
structure PState where
  queue : List (String × Nat)
  visited : List String
  snapshots : List PageSnapshot
  errors : List String
  completed : Bool
  workers : List WPhase
deriving Repr, DecidableEq

/-- Initial parallel state: the root in the queue, all workers idle. -/
def initPState (cfg : CrawlConfig) : PState :=
  ⟨[(cfg.base_url, 0)], [], [], [], false, List.replicate cfg.page_concurrency .idle⟩

/-- One atomic step of the parallel crawl (`ws₁ ++ [phase] ++ ws₂` frames
the acting worker). -/
inductive PStep (cfg : CrawlConfig) (site : Site) : PState → PState → Prop where
  | get (item : String × Nat) (q : List (String × Nat)) (v : List String)
      (s : List PageSnapshot) (e : List String) (c : Bool) (ws₁ ws₂ : List WPhase) :
      PStep cfg site ⟨item :: q, v, s, e, c, ws₁ ++ .idle :: ws₂⟩
        ⟨q, v, s, e, c, ws₁ ++ .got item.1 item.2 :: ws₂⟩
  | dropCompleted (u : String) (d : Nat) (q : List (String × Nat)) (v : List String)
      (s : List PageSnapshot) (e : List String) (ws₁ ws₂ : List WPhase) :
      PStep cfg site ⟨q, v, s, e, true, ws₁ ++ .got u d :: ws₂⟩
        ⟨q, v, s, e, true, ws₁ ++ .idle :: ws₂⟩
  | dropVisited (u : String) (d : Nat) (q : List (String × Nat)) (v : List String)
      (s : List PageSnapshot) (e : List String) (ws₁ ws₂ : List WPhase)
      (hv : normalize_url u ∈ v) :
      PStep cfg site ⟨q, v, s, e, false, ws₁ ++ .got u d :: ws₂⟩
        ⟨q, v, s, e, false, ws₁ ++ .idle :: ws₂⟩
  | claim (u : String) (d : Nat) (q : List (String × Nat)) (v : List String)
      (s : List PageSnapshot) (e : List String) (ws₁ ws₂ : List WPhase)
      (hv : normalize_url u ∉ v) :
      PStep cfg site ⟨q, v, s, e, false, ws₁ ++ .got u d :: ws₂⟩
        ⟨q, normalize_url u :: v, s, e, false, ws₁ ++ .claimed (normalize_url u) d :: ws₂⟩
  | depthSkip (u : String) (d : Nat) (q : List (String × Nat)) (v : List String)
      (s : List PageSnapshot) (e : List String) (c : Bool) (ws₁ ws₂ : List WPhase)
      (hd : d > cfg.max_depth) :
      PStep cfg site ⟨q, v, s, e, c, ws₁ ++ .claimed u d :: ws₂⟩
        ⟨q, v, s, e, c, ws₁ ++ .idle :: ws₂⟩
  | fetchErr (u : String) (d : Nat) (q : List (String × Nat)) (v : List String)
      (s : List PageSnapshot) (e : List String) (c : Bool) (ws₁ ws₂ : List WPhase)
      (exc : String) (hd : d ≤ cfg.max_depth) (hf : site.fetch u = .error exc) :
      PStep cfg site ⟨q, v, s, e, c, ws₁ ++ .claimed u d :: ws₂⟩
        ⟨q, v, s, e ++ [u ++ ": " ++ exc], c, ws₁ ++ .idle :: ws₂⟩
  | fetchOk (u : String) (d : Nat) (q : List (String × Nat)) (v : List String)
      (s : List PageSnapshot) (e : List String) (c : Bool) (ws₁ ws₂ : List WPhase)
      (status_code : Nat) (content_type : Option String) (body : String)
      (hd : d ≤ cfg.max_depth) (hf : site.fetch u = .ok (status_code, content_type, body)) :
      PStep cfg site ⟨q, v, s, e, c, ws₁ ++ .claimed u d :: ws₂⟩
        ⟨q, v, s, e, c,
          ws₁ ++ .fetched
            { url := u
              depth := d
              status_code := status_code
              html := if is_html_content content_type then body else ""
              content_type := content_type
              discovered_urls :=
                discoverLinks cfg site u
                  (if is_html_content content_type then body else "") none }
            ((discoverLinks cfg site u
                (if is_html_content content_type then body else "") none).map
              (fun l => (l, d + 1))) :: ws₂⟩
  | enqPut (snap : PageSnapshot) (l : String × Nat) (ls : List (String × Nat))
      (q : List (String × Nat)) (v : List String) (s : List PageSnapshot)
      (e : List String) (ws₁ ws₂ : List WPhase) :
      PStep cfg site ⟨q, v, s, e, false, ws₁ ++ .fetched snap (l :: ls) :: ws₂⟩
        ⟨q ++ [l], v, s, e, false, ws₁ ++ .fetched snap ls :: ws₂⟩
  | enqSkip (snap : PageSnapshot) (l : String × Nat) (ls : List (String × Nat))
      (q : List (String × Nat)) (v : List String) (s : List PageSnapshot)
      (e : List String) (ws₁ ws₂ : List WPhase) :
      PStep cfg site ⟨q, v, s, e, true, ws₁ ++ .fetched snap (l :: ls) :: ws₂⟩
        ⟨q, v, s, e, true, ws₁ ++ .fetched snap ls :: ws₂⟩
  | appendOk (snap : PageSnapshot) (q : List (String × Nat)) (v : List String)
      (s : List PageSnapshot) (e : List String) (c : Bool) (ws₁ ws₂ : List WPhase)
      (hs : s.length < cfg.max_pages) :
      PStep cfg site ⟨q, v, s, e, c, ws₁ ++ .fetched snap [] :: ws₂⟩
        ⟨q, v, s ++ [snap], e, c || decide (s.length + 1 ≥ cfg.max_pages),
          ws₁ ++ .idle :: ws₂⟩
  | appendFull (snap : PageSnapshot) (q : List (String × Nat)) (v : List String)
      (s : List PageSnapshot) (e : List String) (c : Bool) (ws₁ ws₂ : List WPhase)
      (hs : s.length ≥ cfg.max_pages) :
      PStep cfg site ⟨q, v, s, e, c, ws₁ ++ .fetched snap [] :: ws₂⟩
        ⟨q, v, s, e, true, ws₁ ++ .idle :: ws₂⟩
  | exitWorker (q : List (String × Nat)) (v : List String) (s : List PageSnapshot)
      (e : List String) (ws₁ ws₂ : List WPhase) :
      PStep cfg site ⟨q, v, s, e, true, ws₁ ++ .idle :: ws₂⟩
        ⟨q, v, s, e, true, ws₁ ++ .done :: ws₂⟩
  | mainCompleted (v : List String) (s : List PageSnapshot) (e : List String)
      (ws : List WPhase) (hq : ∀ w ∈ ws, w = .idle ∨ w = .done) :
      PStep cfg site ⟨[], v, s, e, false, ws⟩ ⟨[], v, s, e, true, ws⟩

/-- Reachability from the initial parallel state. -/
def PReachable (cfg : CrawlConfig) (site : Site) (st : PState) : Prop :=
  Relation.ReflTransGen (PStep cfg site) (initPState cfg) st

/-- The canonical URL a worker currently holds exclusively (it has added
the URL to `visited` and no snapshot for it exists yet). -/
def inflightUrls : WPhase → List String
  | .claimed u _ => [u]
  | .fetched snap _ => [snap.url]
  | _ => []

/-! ### Character-level lemmas for the URL helpers -/

theorem char_le_iff {a b : Char} : a ≤ b ↔ a.toNat ≤ b.toNat := by
  rw [Char.le_def]
  simp [UInt32.le_def, BitVec.le_def]
  rfl

theorem ofNat_toNat_valid (n : Nat) (h : n < 55296) : (Char.ofNat n).toNat = n := by
  have hv : n.isValidChar := Or.inl h
  unfold Char.ofNat
  rw [dif_pos hv]
  simp only [Char.ofNatAux, Char.toNat, UInt32.ofNat', UInt32.toNat]
  simp [BitVec.toNat_ofNat]

theorem pyLower_toNat {c : Char} (h : 'A' ≤ c ∧ c ≤ 'Z') :
    (pyLower c).toNat = c.toNat + 32 := by
  have h1 : (65 : Nat) ≤ c.toNat := char_le_iff.mp h.1
  have h2 : c.toNat ≤ (90 : Nat) := char_le_iff.mp h.2
  rw [pyLower, if_pos h, ofNat_toNat_valid _ (by omega)]

theorem pyLower_idem (c : Char) : pyLower (pyLower c) = pyLower c := by
  by_cases h : 'A' ≤ c ∧ c ≤ 'Z'
  · have ht := pyLower_toNat h
    have h1 : (65 : Nat) ≤ c.toNat := char_le_iff.mp h.1
    conv_lhs => rw [pyLower]
    rw [if_neg]
    intro hc
    have hz : c.toNat + 32 ≤ (90 : Nat) := ht ▸ char_le_iff.mp hc.2
    omega
  · have hc : pyLower c = c := by rw [pyLower, if_neg h]
    rw [hc, hc]

theorem map_pyLower_idem (l : List Char) : (l.map pyLower).map pyLower = l.map pyLower := by
  rw [List.map_map]
  exact List.map_congr_left fun c _ => pyLower_idem c

/-! ### Splitting lemmas for the `urlparse` embedding -/

theorem splitFirst_of_not_mem {c : Char} : ∀ {l : List Char}, c ∉ l → splitFirst c l = none
  | [], _ => rfl
  | x :: xs, h => by
    have hx : x ≠ c := fun he => h (he ▸ List.mem_cons_self x xs)
    have hxs : c ∉ xs := fun hm => h (List.mem_cons_of_mem x hm)
    simp [splitFirst, hx, splitFirst_of_not_mem hxs]

theorem splitFirst_append (c : Char) :
    ∀ (A : List Char) (B : List Char), c ∉ A → splitFirst c (A ++ c :: B) = some (A, B)
  | [], B, _ => by simp [splitFirst]
  | x :: xs, B, h => by
    have hx : x ≠ c := fun he => h (he ▸ List.mem_cons_self x xs)
    have hxs : c ∉ xs := fun hm => h (List.mem_cons_of_mem x hm)
    simp [splitFirst, hx, splitFirst_append c xs B hxs]

theorem takeWhile_middle (p : Char → Bool) (d : Char) (B : List Char) (hd : p d = false) :
    ∀ (A : List Char), (∀ x ∈ A, p x = true) → (A ++ d :: B).takeWhile p = A
  | [], _ => by simp [List.takeWhile_cons, hd]
  | x :: xs, hA => by
    have hx : p x = true := hA x (List.mem_cons_self x xs)
    have hxs : ∀ y ∈ xs, p y = true := fun y hy => hA y (List.mem_cons_of_mem x hy)
    simp [List.takeWhile_cons, hx, takeWhile_middle p d B hd xs hxs]

theorem dropWhile_middle (p : Char → Bool) (d : Char) (B : List Char) (hd : p d = false) :
    ∀ (A : List Char), (∀ x ∈ A, p x = true) → (A ++ d :: B).dropWhile p = d :: B
  | [], _ => by simp [List.dropWhile_cons, hd]
  | x :: xs, hA => by
    have hx : p x = true := hA x (List.mem_cons_self x xs)
    have hxs : ∀ y ∈ xs, p y = true := fun y hy => hA y (List.mem_cons_of_mem x hy)
    simp [List.dropWhile_cons, hx, dropWhile_middle p d B hd xs hxs]

theorem schemeChar_ne_colon {x : Char} (h : isSchemeChar x = true) : x ≠ ':' := by
  intro he
  subst he
  exact absurd h (by decide)

theorem asciiAlpha_ne_colon {x : Char} (h : isAsciiAlpha x = true) : x ≠ ':' := by
  intro he
  subst he
  exact absurd h (by decide)

theorem splitScheme_append (c : Char) (S rest : List Char)
    (hc : isAsciiAlpha c = true) (hS : S.all isSchemeChar = true) :
    splitScheme ((c :: S) ++ ':' :: rest) = ((c :: S).map pyLower, rest) := by
  have hmem : (':' : Char) ∉ c :: S := by
    intro hm
    rcases List.mem_cons.mp hm with he | hs
    · exact asciiAlpha_ne_colon hc he.symm
    · exact schemeChar_ne_colon (List.all_eq_true.mp hS _ hs) rfl
  have hsplit := splitFirst_append ':' (c :: S) rest hmem
  simp only [splitScheme, hsplit]
  simp [hc, hS]

theorem netlocSpan_middle (H : List Char) (d : Char) (R : List Char)
    (hH : ∀ x ∈ H, x ≠ '/' ∧ x ≠ '?' ∧ x ≠ '#') (hd : d = '/' ∨ d = '?' ∨ d = '#') :
    netlocSpan (H ++ d :: R) = (H, d :: R) := by
  have hp : ∀ x ∈ H, (fun c => ¬(c = '/' ∨ c = '?' ∨ c = '#') : Char → Bool) x = true := by
    intro x hx
    rcases hH x hx with ⟨h1, h2, h3⟩
    simp [h1, h2, h3]
  have hdp : (fun c => ¬(c = '/' ∨ c = '?' ∨ c = '#') : Char → Bool) d = false := by
    rcases hd with rfl | rfl | rfl <;> simp
  unfold netlocSpan
  rw [takeWhile_middle _ d R hdp H hp, dropWhile_middle _ d R hdp H hp]

theorem urlparse_fragment_shape (c : Char) (S H P F : List Char)
    (hc : isAsciiAlpha c = true) (hS : S.all isSchemeChar = true)
    (hH : ∀ x ∈ H, x ≠ '/' ∧ x ≠ '?' ∧ x ≠ '#')
    (hP : P = [] ∨ ∃ Pt, P = '/' :: Pt)
    (hPn : ∀ x ∈ P, x ≠ '#' ∧ x ≠ '?' ∧ x ≠ ';') :
    urlparse ⟨c :: S ++ ':' :: '/' :: '/' :: H ++ P ++ '#' :: F⟩ =
      ⟨(c :: S).map pyLower, H, P, [], [], F⟩ := by
  rcases hP with rfl | ⟨Pt, rfl⟩
  · have h1 := splitScheme_append c S ('/' :: '/' :: (H ++ '#' :: F)) hc hS
    simp only [List.cons_append, List.append_assoc, List.nil_append] at h1
    have h2 := netlocSpan_middle H '#' F hH (Or.inr (Or.inr rfl))
    simp only [urlparse, List.cons_append, List.append_assoc, List.nil_append, h1,
      List.take_succ_cons, List.take_zero, List.drop_succ_cons, List.drop_zero,
      reduceIte, h2, splitFirst, List.not_mem_nil, if_false, if_true]
  · have h1 := splitScheme_append c S ('/' :: '/' :: (H ++ ('/' :: Pt ++ '#' :: F))) hc hS
    simp only [List.cons_append, List.append_assoc, List.nil_append] at h1
    have h2 := netlocSpan_middle H '/' (Pt ++ '#' :: F) hH (Or.inl rfl)
    have hnp : ('#' : Char) ∉ '/' :: Pt := fun hm => (hPn '#' hm).1 rfl
    have h3 := splitFirst_append '#' ('/' :: Pt) F hnp
    simp only [List.cons_append, List.append_assoc, List.nil_append] at h3
    have hq : ('?' : Char) ∉ '/' :: Pt := fun hm => (hPn '?' hm).2.1 rfl
    have h4 := splitFirst_of_not_mem hq
    have hsemi : (';' : Char) ∉ '/' :: Pt := fun hm => (hPn _ hm).2.2 rfl
    simp only [urlparse, List.cons_append, List.append_assoc, List.nil_append, h1,
      List.take_succ_cons, List.take_zero, List.drop_succ_cons, List.drop_zero,
      reduceIte, h2, h3, h4, hsemi, if_false]

theorem urlparse_query_shape (c : Char) (S H P Q : List Char)
    (hc : isAsciiAlpha c = true) (hS : S.all isSchemeChar = true)
    (hH : ∀ x ∈ H, x ≠ '/' ∧ x ≠ '?' ∧ x ≠ '#')
    (hP : P = [] ∨ ∃ Pt, P = '/' :: Pt)
    (hPn : ∀ x ∈ P, x ≠ '#' ∧ x ≠ '?' ∧ x ≠ ';')
    (hQ : ∀ x ∈ Q, x ≠ '#') :
    urlparse ⟨c :: S ++ ':' :: '/' :: '/' :: H ++ P ++ '?' :: Q⟩ =
      ⟨(c :: S).map pyLower, H, P, [], Q, []⟩ := by
  have hq0 : ('#' : Char) ∉ '?' :: Q := by
    intro hm
    rcases List.mem_cons.mp hm with he | hq2
    · exact absurd he.symm (by decide)
    · exact hQ '#' hq2 rfl
  rcases hP with rfl | ⟨Pt, rfl⟩
  · have h1 := splitScheme_append c S ('/' :: '/' :: (H ++ '?' :: Q)) hc hS
    simp only [List.cons_append, List.append_assoc, List.nil_append] at h1
    have h2 := netlocSpan_middle H '?' Q hH (Or.inr (Or.inl rfl))
    have h3 := splitFirst_of_not_mem hq0
    simp only [urlparse, List.cons_append, List.append_assoc, List.nil_append, h1,
      List.take_succ_cons, List.take_zero, List.drop_succ_cons, List.drop_zero,
      reduceIte, h2, h3, splitFirst, List.not_mem_nil, if_false, if_true]
  · have h1 := splitScheme_append c S ('/' :: '/' :: (H ++ ('/' :: Pt ++ '?' :: Q))) hc hS
    simp only [List.cons_append, List.append_assoc, List.nil_append] at h1
    have h2 := netlocSpan_middle H '/' (Pt ++ '?' :: Q) hH (Or.inl rfl)
    have hfr : ('#' : Char) ∉ '/' :: Pt ++ '?' :: Q := by
      intro hm
      rcases List.mem_append.mp hm with hp | hq2
      · exact (hPn '#' hp).1 rfl
      · exact hq0 hq2
    have h3 := splitFirst_of_not_mem hfr
    simp only [List.cons_append, List.append_assoc, List.nil_append] at h3
    have hq4 : ('?' : Char) ∉ '/' :: Pt := fun hm => (hPn '?' hm).2.1 rfl
    have h4 := splitFirst_append '?' ('/' :: Pt) Q hq4
    simp only [List.cons_append, List.append_assoc, List.nil_append] at h4
    have hsemi : (';' : Char) ∉ '/' :: Pt := fun hm => (hPn _ hm).2.2 rfl
    simp only [urlparse, List.cons_append, List.append_assoc, List.nil_append, h1,
      List.take_succ_cons, List.take_zero, List.drop_succ_cons, List.drop_zero,
      reduceIte, h2, h3, h4, hsemi, if_false]

theorem normalize_url_fragment_shape (c : Char) (S H P F : List Char)
    (hc : isAsciiAlpha c = true) (hS : S.all isSchemeChar = true)
    (hHne : H ≠ [])
    (hH : ∀ x ∈ H, x ≠ '/' ∧ x ≠ '?' ∧ x ≠ '#')
    (hP : P = [] ∨ ∃ Pt, P = '/' :: Pt)
    (hPn : ∀ x ∈ P, x ≠ '#' ∧ x ≠ '?' ∧ x ≠ ';') :
    normalize_url ⟨c :: S ++ ':' :: '/' :: '/' :: H ++ P ++ '#' :: F⟩ =
      ⟨(c :: S).map pyLower ++ ':' :: '/' :: '/' :: H.map pyLower ++
        (if P = [] then ['/'] else P)⟩ := by
  have hup := urlparse_fragment_shape c S H P F hc hS hH hP hPn
  have hmne : H.map pyLower ≠ [] := by
    intro hm
    exact hHne (List.map_eq_nil_iff.mp hm)
  rcases hP with rfl | ⟨Pt, rfl⟩
  · simp only [List.cons_append, List.append_assoc, List.nil_append] at hup
    unfold normalize_url
    simp only [List.cons_append, List.append_assoc, List.nil_append]
    rw [hup]
    simp only [urlunparse, urlunsplit, List.map_cons, map_pyLower_idem, List.map_map]
    simp [hmne, Function.comp_def, pyLower_idem]
  · simp only [List.cons_append, List.append_assoc, List.nil_append] at hup
    unfold normalize_url
    simp only [List.cons_append, List.append_assoc, List.nil_append]
    rw [hup]
    simp only [urlunparse, urlunsplit, List.map_cons, map_pyLower_idem, List.map_map]
    simp [hmne, Function.comp_def, pyLower_idem]

theorem canonical_path_query_shape (c : Char) (S H P Q : List Char)
    (hc : isAsciiAlpha c = true) (hS : S.all isSchemeChar = true)
    (hH : ∀ x ∈ H, x ≠ '/' ∧ x ≠ '?' ∧ x ≠ '#')
    (hP : P = [] ∨ ∃ Pt, P = '/' :: Pt)
    (hPn : ∀ x ∈ P, x ≠ '#' ∧ x ≠ '?' ∧ x ≠ ';')
    (hQ : ∀ x ∈ Q, x ≠ '#') :
    canonical_path ⟨c :: S ++ ':' :: '/' :: '/' :: H ++ P ++ '?' :: Q⟩ =
      ⟨(if P = [] then ['/'] else P) ++ (if Q ≠ [] then '?' :: Q else [])⟩ := by
  have hup := urlparse_query_shape c S H P Q hc hS hH hP hPn hQ
  rcases hP with rfl | ⟨Pt, rfl⟩
  · by_cases hqe : Q = []
    · subst hqe
      simp only [List.cons_append, List.append_assoc, List.nil_append] at hup
      simp [canonical_path, hup]
    · simp only [List.cons_append, List.append_assoc, List.nil_append] at hup
      simp [canonical_path, hup, hqe]
  · by_cases hqe : Q = []
    · subst hqe
      simp only [List.cons_append, List.append_assoc, List.nil_append] at hup
      simp [canonical_path, hup]
    · simp only [List.cons_append, List.append_assoc, List.nil_append] at hup
      simp [canonical_path, hup, hqe]

/-- C9: `normalize_url` lowercases the scheme and the host, defaults an
empty path to `/` and strips the fragment by default, and `canonical_path`
keeps only path and query (host and fragment removed); in particular
`normalize_url "HTTP://Example.COM/foo#section" = "http://example.com/foo"`
and `canonical_path "https://example.com/path?a=1" = "/path?a=1"`. -/
theorem C9_url_canonicalisation :
    (∀ (c : Char) (S H P F : List Char),
        isAsciiAlpha c = true → S.all isSchemeChar = true → H ≠ [] →
        (∀ x ∈ H, x ≠ '/' ∧ x ≠ '?' ∧ x ≠ '#') →
        (P = [] ∨ ∃ Pt, P = '/' :: Pt) →
        (∀ x ∈ P, x ≠ '#' ∧ x ≠ '?' ∧ x ≠ ';') →
        normalize_url ⟨c :: S ++ ':' :: '/' :: '/' :: H ++ P ++ '#' :: F⟩ =
          ⟨(c :: S).map pyLower ++ ':' :: '/' :: '/' :: H.map pyLower ++
            (if P = [] then ['/'] else P)⟩) ∧
    (∀ (c : Char) (S H P Q : List Char),
        isAsciiAlpha c = true → S.all isSchemeChar = true →
        (∀ x ∈ H, x ≠ '/' ∧ x ≠ '?' ∧ x ≠ '#') →
        (P = [] ∨ ∃ Pt, P = '/' :: Pt) →
        (∀ x ∈ P, x ≠ '#' ∧ x ≠ '?' ∧ x ≠ ';') →
        (∀ x ∈ Q, x ≠ '#') →
        canonical_path ⟨c :: S ++ ':' :: '/' :: '/' :: H ++ P ++ '?' :: Q⟩ =
          ⟨(if P = [] then ['/'] else P) ++ (if Q ≠ [] then '?' :: Q else [])⟩) ∧
    normalize_url "HTTP://Example.COM/foo#section" = "http://example.com/foo" ∧
    canonical_path "https://example.com/path?a=1" = "/path?a=1" := by
  refine ⟨?_, ?_, by decide, by decide⟩
  · intro c S H P F hc hS hHne hH hP hPn
    exact normalize_url_fragment_shape c S H P F hc hS hHne hH hP hPn
  · intro c S H P Q hc hS hH hP hPn hQ
    exact canonical_path_query_shape c S H P Q hc hS hH hP hPn hQ

/-- C9 witness: the two general statements applied at the spec's concrete
examples. -/
theorem C9_url_canonicalisation_witness :
    normalize_url ⟨'H' :: "TTP".data ++ ':' :: '/' :: '/' :: "Example.COM".data ++
        "/foo".data ++ '#' :: "section".data⟩ =
      ⟨('H' :: "TTP".data).map pyLower ++ ':' :: '/' :: '/' ::
        "Example.COM".data.map pyLower ++
        (if "/foo".data = [] then ['/'] else "/foo".data)⟩ ∧
    canonical_path ⟨'h' :: "ttps".data ++ ':' :: '/' :: '/' :: "example.com".data ++
        "/path".data ++ '?' :: "a=1".data⟩ =
      ⟨(if "/path".data = [] then ['/'] else "/path".data) ++
        (if "a=1".data ≠ [] then '?' :: "a=1".data else [])⟩ := by
  constructor
  · exact C9_url_canonicalisation.1 'H' "TTP".data "Example.COM".data "/foo".data
      "section".data (by decide) (by decide) (by decide)
      (by decide) (Or.inr ⟨"foo".data, by decide⟩) (by decide)
  · exact C9_url_canonicalisation.2.1 'h' "ttps".data "example.com".data "/path".data
      "a=1".data (by decide) (by decide) (by decide)
      (Or.inr ⟨"path".data, by decide⟩) (by decide) (by decide)

/-! ### Serial-crawl helper lemmas -/

theorem crawlSerialGo_snapshots_mono (cfg : CrawlConfig) (site : Site) :
    ∀ (fuel : Nat) (st : SerialState),
      ∃ t, (crawlSerialGo cfg site fuel st).snapshots = st.snapshots ++ t
  | 0, _ => ⟨[], by simp [crawlSerialGo]⟩
  | fuel + 1, st => by
    rw [crawlSerialGo]
    split
    case isFalse => exact ⟨[], by simp⟩
    case isTrue h =>
      match hq : st.queue with
      | [] => exact ⟨[], by simp⟩
      | (url, depth) :: rest =>
        simp only []
        split
        case isTrue hv =>
          obtain ⟨t, ht⟩ := crawlSerialGo_snapshots_mono cfg site fuel { st with queue := rest }
          exact ⟨t, ht⟩
        case isFalse hv =>
          split
          case isTrue hd =>
            obtain ⟨t, ht⟩ := crawlSerialGo_snapshots_mono cfg site fuel
              { st with queue := rest, visited := normalize_url url :: st.visited }
            exact ⟨t, ht⟩
          case isFalse hd =>
            split
            case h_1 exc hf =>
              obtain ⟨t, ht⟩ := crawlSerialGo_snapshots_mono cfg site fuel
                { st with
                  queue := rest
                  visited := normalize_url url :: st.visited
                  errors := st.errors ++ [normalize_url url ++ ": " ++ exc] }
              exact ⟨t, ht⟩
            case h_2 status_code content_type body hf =>
              obtain ⟨t, ht⟩ := crawlSerialGo_snapshots_mono cfg site fuel
                { queue := rest ++ (discoverLinks cfg site (normalize_url url)
                      (if is_html_content content_type then body else "")
                      (some (normalize_url url :: st.visited))).map (fun l => (l, depth + 1))
                  visited := normalize_url url :: st.visited
                  snapshots := st.snapshots ++
                    [{ url := normalize_url url
                       depth := depth
                       status_code := status_code
                       html := if is_html_content content_type then body else ""
                       content_type := content_type
                       discovered_urls := discoverLinks cfg site (normalize_url url)
                         (if is_html_content content_type then body else "")
                         (some (normalize_url url :: st.visited)) }]
                  errors := st.errors }
              exact ⟨_, ht.trans (List.append_assoc _ _ _)⟩

theorem discoverLinks_empty_html (cfg : CrawlConfig) (site : Site) (u : String)
    (cv : Option (List String)) : discoverLinks cfg site u "" cv = [] := by
  simp [discoverLinks]

/-- C10: a response with an absent (or empty) `Content-Type` header is
classified HTML-like by `is_html_content`, so the serial crawler stores its
body in the snapshot and parses it for links, while a non-HTML content type
(e.g. `image/png`) is recorded with an empty body and no links. -/
theorem C10_absent_content_type_is_html :
    is_html_content none = true ∧
    is_html_content (some "") = true ∧
    (∀ (cfg : CrawlConfig) (site : Site) (status : Nat) (body : String) (fuel : Nat),
      1 ≤ cfg.max_pages →
      site.fetch (normalize_url cfg.base_url) = .ok (status, none, body) →
      ∃ rest, (crawlSerial cfg site (fuel + 1)).snapshots =
        { url := normalize_url cfg.base_url
          depth := 0
          status_code := status
          html := body
          content_type := none
          discovered_urls :=
            discoverLinks cfg site (normalize_url cfg.base_url) body
              (some [normalize_url cfg.base_url]) } :: rest) ∧
    (∀ (cfg : CrawlConfig) (site : Site) (status : Nat) (body : String) (fuel : Nat),
      1 ≤ cfg.max_pages →
      site.fetch (normalize_url cfg.base_url) = .ok (status, some "image/png", body) →
      ∃ rest, (crawlSerial cfg site (fuel + 1)).snapshots =
        { url := normalize_url cfg.base_url
          depth := 0
          status_code := status
          html := ""
          content_type := some "image/png"
          discovered_urls := [] } :: rest) := by
  refine ⟨rfl, rfl, ?_, ?_⟩
  · intro cfg site status body fuel hmax hf
    have h0 : 0 < cfg.max_pages := hmax
    have hhtml : is_html_content none = true := rfl
    unfold crawlSerial crawlSerialGo
    simp only [List.length_nil, h0, ne_eq, reduceCtorEq, not_false_eq_true, and_true,
      true_and, and_self, if_true, List.not_mem_nil, if_false, Nat.not_lt_zero, hf,
      hhtml, List.nil_append]
    obtain ⟨t, ht⟩ := crawlSerialGo_snapshots_mono cfg site fuel _
    exact ⟨t, by rw [ht]; simp⟩
  · intro cfg site status body fuel hmax hf
    have h0 : 0 < cfg.max_pages := hmax
    have hhtml : is_html_content (some "image/png") = false := rfl
    unfold crawlSerial crawlSerialGo
    simp only [List.length_nil, h0, ne_eq, reduceCtorEq, not_false_eq_true, and_true,
      true_and, and_self, if_true, List.not_mem_nil, if_false, Nat.not_lt_zero, hf,
      hhtml, Bool.false_eq_true, discoverLinks_empty_html, List.nil_append]
    obtain ⟨t, ht⟩ := crawlSerialGo_snapshots_mono cfg site fuel _
    exact ⟨t, by rw [ht]; simp⟩

/-- C10 witness: the crawl conjuncts applied to a concrete one-page site
with no `Content-Type` header and to one answering `image/png`. -/
theorem C10_absent_content_type_is_html_witness :
    (∃ rest,
      (crawlSerial { base_url := "http://a.test/" }
          ⟨fun _ => .ok (200, none, "hello"), fun _ => [], fun _ l => l⟩ 1).snapshots =
        { url := normalize_url "http://a.test/"
          depth := 0
          status_code := 200
          html := "hello"
          content_type := none
          discovered_urls :=
            discoverLinks { base_url := "http://a.test/" }
              ⟨fun _ => .ok (200, none, "hello"), fun _ => [], fun _ l => l⟩
              (normalize_url "http://a.test/") "hello"
              (some [normalize_url "http://a.test/"]) } :: rest) ∧
    (∃ rest,
      (crawlSerial { base_url := "http://a.test/" }
          ⟨fun _ => .ok (200, some "image/png", "hello"), fun _ => [], fun _ l => l⟩ 1).snapshots =
        { url := normalize_url "http://a.test/"
          depth := 0
          status_code := 200
          html := ""
          content_type := some "image/png"
          discovered_urls := [] } :: rest) := by
  constructor
  · exact C10_absent_content_type_is_html.2.2.1 { base_url := "http://a.test/" }
      ⟨fun _ => .ok (200, none, "hello"), fun _ => [], fun _ l => l⟩ 200 "hello" 0
      (by decide) rfl
  · exact C10_absent_content_type_is_html.2.2.2 { base_url := "http://a.test/" }
      ⟨fun _ => .ok (200, some "image/png", "hello"), fun _ => [], fun _ l => l⟩ 200 "hello" 0
      (by decide) rfl

/-! ### Bit-level lemmas for `hamming_distance` (claim C7)

The spec-side notion "the hashes differ in exactly k bits" is expressed
digit-wise: `hexDigitBits` lists the four bits of one hex digit
(most-significant first, matching the row-major big-endian hash encoding),
`hexBits` concatenates them, and `diffBitCount` counts positions where the
two bit strings disagree. -/

/-- The four bits of a hexadecimal digit value, most-significant first. -/
def hexDigitBits (d : Nat) : List Bool :=
  [decide (d / 8 % 2 = 1), decide (d / 4 % 2 = 1), decide (d / 2 % 2 = 1), decide (d % 2 = 1)]

/-- All bits of a hex string, in order. -/
def hexBits (l : List Char) : List Bool :=
  l.flatMap (fun c => hexDigitBits ((hexDigitVal c).getD 0))

/-- Number of bit positions where two equal-length hex strings disagree. -/
def diffBitCount (a b : List Char) : Nat :=
  ((hexBits a).zip (hexBits b)).countP (fun p => decide (p.1 ≠ p.2))

theorem popcountGo_zero (fuel : Nat) : popcountGo fuel 0 = 0 := by
  cases fuel <;> rfl

theorem popcountGo_congr : ∀ (f₁ f₂ n : Nat), n ≤ f₁ → n ≤ f₂ →
    popcountGo f₁ n = popcountGo f₂ n
  | 0, f₂, n, h₁, _ => by
    have : n = 0 := Nat.le_zero.mp h₁
    subst this
    rw [popcountGo_zero, popcountGo_zero]
  | _ + 1, _, 0, _, _ => by rw [popcountGo_zero, popcountGo_zero]
  | f₁ + 1, f₂, n + 1, h₁, h₂ => by
    match f₂, h₂ with
    | f₂ + 1, h₂ =>
      show popcountGo f₁ ((n + 1) / 2) + (n + 1) % 2 =
        popcountGo f₂ ((n + 1) / 2) + (n + 1) % 2
      have hlt : (n + 1) / 2 < n + 1 := Nat.div_lt_self (Nat.succ_pos n) (by norm_num)
      rw [popcountGo_congr f₁ f₂ ((n + 1) / 2) (by omega) (by omega)]

theorem popcount_div2 (n : Nat) (h : n ≠ 0) : popcount n = popcount (n / 2) + n % 2 := by
  match n, h with
  | m + 1, _ =>
    show popcountGo m ((m + 1) / 2) + (m + 1) % 2 = _
    have hlt : (m + 1) / 2 < m + 1 := Nat.div_lt_self (Nat.succ_pos m) (by norm_num)
    rw [popcountGo_congr m ((m + 1) / 2) ((m + 1) / 2) (by omega) le_rfl]
    rfl

theorem natBit_decomp (m : Nat) : Nat.bit (decide (m % 2 = 1)) (m / 2) = m := by
  rw [Nat.bit_val]
  have := Nat.div_add_mod m 2
  rcases Nat.mod_two_eq_zero_or_one m with h | h <;> simp [h] <;> omega

theorem xor_lt_pow2 : ∀ (k d e : Nat), d < 2 ^ k → e < 2 ^ k → d ^^^ e < 2 ^ k
  | 0, d, e, hd, he => by
    have hd0 : d = 0 := by simpa using Nat.lt_one_iff.mp (by simpa using hd)
    have he0 : e = 0 := by simpa using Nat.lt_one_iff.mp (by simpa using he)
    subst hd0
    subst he0
    simp
  | k + 1, d, e, hd, he => by
    have hp : (2 : ℕ) ^ (k + 1) = 2 * 2 ^ k := by rw [pow_succ]; ring
    have hd2 : d / 2 < 2 ^ k := by omega
    have he2 : e / 2 < 2 ^ k := by omega
    have hrec := xor_lt_pow2 k (d / 2) (e / 2) hd2 he2
    conv_lhs => rw [← natBit_decomp d, ← natBit_decomp e, Nat.xor_bit]
    rw [Nat.bit_val]
    have hb : (bne (decide (d % 2 = 1)) (decide (e % 2 = 1))).toNat ≤ 1 := by
      cases (bne (decide (d % 2 = 1)) (decide (e % 2 = 1))) <;> simp
    omega

theorem xorAligned : ∀ (k x y d e : Nat), d < 2 ^ k → e < 2 ^ k →
    (2 ^ k * x + d) ^^^ (2 ^ k * y + e) = 2 ^ k * (x ^^^ y) + (d ^^^ e)
  | 0, x, y, d, e, hd, he => by
    have hd0 : d = 0 := by simpa using Nat.lt_one_iff.mp (by simpa using hd)
    have he0 : e = 0 := by simpa using Nat.lt_one_iff.mp (by simpa using he)
    subst hd0
    subst he0
    simp
  | k + 1, x, y, d, e, hd, he => by
    have hps : ∀ z : Nat, 2 ^ (k + 1) * z = 2 * (2 ^ k * z) := by
      intro z
      rw [pow_succ]
      ring
    have hd2 : d / 2 < 2 ^ k := by
      have := hps 1
      omega
    have he2 : e / 2 < 2 ^ k := by
      have := hps 1
      omega
    have h1 : 2 ^ (k + 1) * x + d = Nat.bit (decide (d % 2 = 1)) (2 ^ k * x + d / 2) := by
      rw [Nat.bit_val, hps x]
      rcases Nat.mod_two_eq_zero_or_one d with h | h <;> simp [h] <;> omega
    have h2 : 2 ^ (k + 1) * y + e = Nat.bit (decide (e % 2 = 1)) (2 ^ k * y + e / 2) := by
      rw [Nat.bit_val, hps y]
      rcases Nat.mod_two_eq_zero_or_one e with h | h <;> simp [h] <;> omega
    rw [h1, h2, Nat.xor_bit, xorAligned k x y (d / 2) (e / 2) hd2 he2]
    conv_rhs => rw [← natBit_decomp d, ← natBit_decomp e, Nat.xor_bit]
    rw [Nat.bit_val, Nat.bit_val, hps (x ^^^ y)]
    ring

theorem popcount_mul_add : ∀ (k x d : Nat), d < 2 ^ k →
    popcount (2 ^ k * x + d) = popcount x + popcount d
  | 0, x, d, hd => by
    have hd0 : d = 0 := by simpa using Nat.lt_one_iff.mp (by simpa using hd)
    subst hd0
    show popcount (1 * x + 0) = popcount x + popcount 0
    rw [one_mul, Nat.add_zero]
    rfl
  | k + 1, x, d, hd => by
    have hps : ∀ z : Nat, 2 ^ (k + 1) * z = 2 * (2 ^ k * z) := by
      intro z
      rw [pow_succ]
      ring
    by_cases hz : 2 ^ (k + 1) * x + d = 0
    · have h1 := hps 1
      have hx : x = 0 := by
        rcases Nat.mul_eq_zero.mp (by omega : 2 ^ (k + 1) * x = 0) with h | h
        · exact absurd h (by positivity)
        · exact h
      have hd0 : d = 0 := by omega
      subst hx
      subst hd0
      simp [show popcount 0 = 0 from rfl]
    · rw [popcount_div2 _ hz]
      have hdiv : (2 ^ (k + 1) * x + d) / 2 = 2 ^ k * x + d / 2 := by
        rw [hps x, Nat.mul_add_div (by norm_num)]
      have hmod : (2 ^ (k + 1) * x + d) % 2 = d % 2 := by
        rw [hps x, Nat.mul_add_mod]
      have hd2 : d / 2 < 2 ^ k := by
        have := hps 1
        omega
      rw [hdiv, hmod, popcount_mul_add k x (d / 2) hd2]
      by_cases hdz : d = 0
      · subst hdz
        simp [show popcount 0 = 0 from rfl]
      · rw [popcount_div2 d hdz]
        ring

theorem hexDigitVal_lt {c : Char} {d : Nat} (h : hexDigitVal c = some d) : d < 16 := by
  unfold hexDigitVal at h
  split at h
  case isTrue hdig =>
    have hb : '0' ≤ c ∧ c ≤ '9' := by simpa [isAsciiDigit] using hdig
    have h1 : (48 : Nat) ≤ c.toNat := char_le_iff.mp hb.1
    have h2 : c.toNat ≤ (57 : Nat) := char_le_iff.mp hb.2
    have h0 : '0'.toNat = 48 := rfl
    have := Option.some.inj h
    omega
  case isFalse =>
    split at h
    case isTrue hlo =>
      have h1 : (97 : Nat) ≤ c.toNat := char_le_iff.mp hlo.1
      have h2 : c.toNat ≤ (102 : Nat) := char_le_iff.mp hlo.2
      have h0 : 'a'.toNat = 97 := rfl
      have := Option.some.inj h
      omega
    case isFalse =>
      split at h
      case isTrue hup =>
        have h1 : (65 : Nat) ≤ c.toNat := char_le_iff.mp hup.1
        have h2 : c.toNat ≤ (70 : Nat) := char_le_iff.mp hup.2
        have h0 : 'A'.toNat = 65 := rfl
        have := Option.some.inj h
        omega
      case isFalse => exact absurd h (by simp)

theorem hexVal_some_lt : ∀ (l : List Char), (∀ c ∈ l, (hexDigitVal c).isSome = true) →
    l ≠ [] → ∃ v, hexVal l = some v ∧ v < 16 ^ l.length
  | [], _, hne => absurd rfl hne
  | [c], hall, _ => by
    obtain ⟨d, hd⟩ := Option.isSome_iff_exists.mp (hall c (by simp))
    exact ⟨d, by simpa [hexVal] using hd, by simpa using hexDigitVal_lt hd⟩
  | c :: c' :: cs, hall, _ => by
    obtain ⟨d, hd⟩ := Option.isSome_iff_exists.mp (hall c (by simp))
    obtain ⟨v, hv, hvlt⟩ := hexVal_some_lt (c' :: cs)
      (fun x hx => hall x (List.mem_cons_of_mem c hx)) (by simp)
    refine ⟨d * 16 ^ (c' :: cs).length + v, ?_, ?_⟩
    · show (match hexDigitVal c, hexVal (c' :: cs) with
        | some d, some v => some (d * 16 ^ (c' :: cs).length + v)
        | _, _ => none) = _
      rw [hd, hv]
    · have hd16 : d < 16 := hexDigitVal_lt hd
      have hle : d * 16 ^ (c' :: cs).length + v < (d + 1) * 16 ^ (c' :: cs).length := by
        have := Nat.pos_pow_of_pos (c' :: cs).length (by norm_num : 0 < 16)
        calc d * 16 ^ (c' :: cs).length + v
            < d * 16 ^ (c' :: cs).length + 16 ^ (c' :: cs).length := by omega
          _ = (d + 1) * 16 ^ (c' :: cs).length := by ring
      calc d * 16 ^ (c' :: cs).length + v
          < (d + 1) * 16 ^ (c' :: cs).length := hle
        _ ≤ 16 * 16 ^ (c' :: cs).length := Nat.mul_le_mul_right _ (by omega)
        _ = 16 ^ (c :: c' :: cs).length := by
            simp only [List.length_cons, pow_succ]
            ring

theorem popcount_digit_diff : ∀ d < 16, ∀ e < 16,
    popcount (d ^^^ e) =
      ((hexDigitBits d).zip (hexDigitBits e)).countP (fun p => decide (p.1 ≠ p.2)) := by
  decide

theorem pow16_eq (n : Nat) : (16 : ℕ) ^ n = 2 ^ (4 * n) := by
  rw [show (16 : ℕ) = 2 ^ 4 from rfl, ← pow_mul]

theorem popcount_xor_eq_diff : ∀ (la lb : List Char) (va vb : Nat),
    la.length = lb.length →
    (∀ c ∈ la, (hexDigitVal c).isSome = true) →
    (∀ c ∈ lb, (hexDigitVal c).isSome = true) →
    hexVal la = some va → hexVal lb = some vb →
    popcount (va ^^^ vb) = diffBitCount la lb
  | [], _, va, _, _, _, _, hva, _ => by simp [hexVal] at hva
  | [c], [], _, _, hlen, _, _, _, _ => by simp at hlen
  | [c], _ :: _ :: _, _, _, hlen, _, _, _, _ => by simp at hlen
  | _ :: _ :: _, [], _, _, hlen, _, _, _, _ => by simp at hlen
  | _ :: _ :: _, [_], _, _, hlen, _, _, _, _ => by simp at hlen
  | [c], [e], va, vb, _, halla, hallb, hva, hvb => by
    obtain ⟨d, hd⟩ := Option.isSome_iff_exists.mp (halla c (by simp))
    obtain ⟨g, hg⟩ := Option.isSome_iff_exists.mp (hallb e (by simp))
    have hvad : va = d := by
      rw [show hexVal [c] = hexDigitVal c from rfl, hd] at hva
      exact (Option.some.inj hva).symm
    have hvbg : vb = g := by
      rw [show hexVal [e] = hexDigitVal e from rfl, hg] at hvb
      exact (Option.some.inj hvb).symm
    rw [hvad, hvbg, popcount_digit_diff d (hexDigitVal_lt hd) g (hexDigitVal_lt hg)]
    simp [diffBitCount, hexBits, hd, hg]
  | c :: c' :: cs, e :: e' :: es, va, vb, hlen, halla, hallb, hva, hvb => by
    obtain ⟨d, hd⟩ := Option.isSome_iff_exists.mp (halla c (by simp))
    obtain ⟨g, hg⟩ := Option.isSome_iff_exists.mp (hallb e (by simp))
    have halla2 : ∀ x ∈ c' :: cs, (hexDigitVal x).isSome = true :=
      fun x hx => halla x (List.mem_cons_of_mem c hx)
    have hallb2 : ∀ x ∈ e' :: es, (hexDigitVal x).isSome = true :=
      fun x hx => hallb x (List.mem_cons_of_mem e hx)
    obtain ⟨v, hv, hvlt⟩ := hexVal_some_lt (c' :: cs) halla2 (by simp)
    obtain ⟨w, hw, hwlt⟩ := hexVal_some_lt (e' :: es) hallb2 (by simp)
    have hlen2 : (c' :: cs).length = (e' :: es).length := by simpa using hlen
    have hvad : va = d * 16 ^ (c' :: cs).length + v := by
      have : hexVal (c :: c' :: cs) =
          (match hexDigitVal c, hexVal (c' :: cs) with
           | some d, some v => some (d * 16 ^ (c' :: cs).length + v)
           | _, _ => none) := rfl
      rw [this, hd, hv] at hva
      exact (Option.some.inj hva).symm
    have hvbg : vb = g * 16 ^ (e' :: es).length + w := by
      have : hexVal (e :: e' :: es) =
          (match hexDigitVal e, hexVal (e' :: es) with
           | some d, some v => some (d * 16 ^ (e' :: es).length + v)
           | _, _ => none) := rfl
      rw [this, hg, hw] at hvb
      exact (Option.some.inj hvb).symm
    rw [hvad, hvbg, ← hlen2]
    have hxa : d * 16 ^ (c' :: cs).length + v ^^^ (g * 16 ^ (c' :: cs).length + w) =
        16 ^ (c' :: cs).length * (d ^^^ g) + (v ^^^ w) := by
      rw [mul_comm d _, mul_comm g _, pow16_eq]
      exact xorAligned (4 * (c' :: cs).length) d g v w
        (pow16_eq (c' :: cs).length ▸ hvlt) (pow16_eq (c' :: cs).length ▸ hlen2 ▸ hwlt)
    rw [hxa, pow16_eq, popcount_mul_add (4 * (c' :: cs).length) (d ^^^ g) (v ^^^ w)
      (xor_lt_pow2 _ _ _ (pow16_eq (c' :: cs).length ▸ hvlt)
        (pow16_eq (c' :: cs).length ▸ hlen2 ▸ hwlt))]
    rw [popcount_xor_eq_diff (c' :: cs) (e' :: es) v w hlen2 halla2 hallb2 hv hw]
    rw [popcount_digit_diff d (hexDigitVal_lt hd) g (hexDigitVal_lt hg)]
    have hba : hexBits (c :: c' :: cs) = hexDigitBits d ++ hexBits (c' :: cs) := by
      simp [hexBits, hd]
    have hbb : hexBits (e :: e' :: es) = hexDigitBits g ++ hexBits (e' :: es) := by
      simp [hexBits, hg]
    unfold diffBitCount
    rw [hba, hbb, List.zip_append (by rfl), List.countP_append]

theorem mem_zip_self {α : Type} : ∀ (l : List α) (p : α × α), p ∈ l.zip l → p.1 = p.2
  | [], p, h => absurd h (List.not_mem_nil p)
  | x :: xs, p, h => by
    rcases List.mem_cons.mp h with rfl | h2
    · rfl
    · exact mem_zip_self xs p h2

/-- The concrete artifacts of the C7 skip-and-continue scenario. -/
def c7BaseImage : ImageArtifact :=
  ⟨"https://b/", "https://b/logo.png", some "00ff00ff00ff00ff", some 10, some "image/png"⟩

/-- Clone image with a mismatched-length hash (its pair raises). -/
def c7BadClone : ImageArtifact :=
  ⟨"https://c/", "https://c/bad.png", some "00", some 99, some "image/png"⟩

/-- Clone image identical in hash to the base image. -/
def c7GoodClone : ImageArtifact :=
  ⟨"https://c/", "https://c/logo.png", some "00ff00ff00ff00ff", some 10, some "image/png"⟩

/-- C7: `hamming_distance` is 0 on identical hex hashes, counts exactly the
differing bits on equal-length hex hashes, raises `ValueError` on
mismatched lengths, and in `_compare_images` a raising pair is skipped
while the remaining pairs are still compared. -/
theorem C7_hamming_distance :
    (∀ s : String, s.data ≠ [] → (∀ c ∈ s.data, (hexDigitVal c).isSome = true) →
      hamming_distance s s = .ok 0) ∧
    (∀ a b : String, a.data.length = b.data.length → a.data ≠ [] →
      (∀ c ∈ a.data, (hexDigitVal c).isSome = true) →
      (∀ c ∈ b.data, (hexDigitVal c).isSome = true) →
      hamming_distance a b = .ok (diffBitCount a.data b.data)) ∧
    (∀ a b : String, a.data.length ≠ b.data.length →
      hamming_distance a b = .error "Hash lengths must match") ∧
    compareImages {} [c7BaseImage] [c7BadClone, c7GoodClone] =
      (1, [⟨c7BaseImage, c7GoodClone, 0, 1⟩]) := by
  have hok : ∀ a b : String, a.data.length = b.data.length → a.data ≠ [] →
      (∀ c ∈ a.data, (hexDigitVal c).isSome = true) →
      (∀ c ∈ b.data, (hexDigitVal c).isSome = true) →
      hamming_distance a b = .ok (diffBitCount a.data b.data) := by
    intro a b hlen hne halla hallb
    obtain ⟨va, hva, _⟩ := hexVal_some_lt a.data halla hne
    have hneb : b.data ≠ [] := by
      intro hb
      rw [hb, List.length_nil] at hlen
      exact hne (List.length_eq_zero.mp hlen)
    obtain ⟨vb, hvb, _⟩ := hexVal_some_lt b.data hallb hneb
    unfold hamming_distance
    rw [if_neg (by omega), hva, hvb]
    show Except.ok (popcount (va ^^^ vb)) = _
    rw [popcount_xor_eq_diff a.data b.data va vb hlen halla hallb hva hvb]
  refine ⟨?_, hok, ?_, ?_⟩
  · intro s hne hall
    have h := hok s s rfl hne hall hall
    have hd : diffBitCount s.data s.data = 0 := by
      unfold diffBitCount
      rw [List.countP_eq_zero]
      intro p hp
      simp [mem_zip_self (hexBits s.data) p hp]
    rw [h, hd]
  · intro a b hlen
    unfold hamming_distance
    rw [if_pos hlen]
  · have hbad : hamming_distance "00ff00ff00ff00ff" "00" = .error "Hash lengths must match" :=
      rfl
    have hgood : hamming_distance "00ff00ff00ff00ff" "00ff00ff00ff00ff" = .ok 0 := rfl
    have e1 : (("00ff00ff00ff00ff" : String) = "") = False := by simp
    have e2 : (("00" : String) = "") = False := by simp
    have hp0 : popcount 0 = 0 := rfl
    norm_num [compareImages, hasHash, c7BaseImage, c7BadClone, c7GoodClone, imagesScan,
      bestImageLoop, hashStr, imageKey, hbad, hgood, sortDescBy, insertDescBy,
      ImageMatch.mk.injEq, List.filter, e1, e2, hp0]
    simp

/-- C7 witness: the three general conjuncts applied at concrete hashes. -/
theorem C7_hamming_distance_witness :
    hamming_distance "ff" "ff" = .ok 0 ∧
    hamming_distance "f0" "f1" = .ok (diffBitCount "f0".data "f1".data) ∧
    hamming_distance "ff" "f" = .error "Hash lengths must match" :=
  ⟨C7_hamming_distance.1 "ff" (by decide) (by decide),
    C7_hamming_distance.2.1 "f0" "f1" (by decide) (by decide) (by decide) (by decide),
    C7_hamming_distance.2.2.1 "ff" "f" (by decide)⟩

/-- C6: the overall score is the weighted sum of the three channel scores
under weights normalised to sum to 1; all-zero weights yield 0; a channel
with no comparable artifacts (here: no text artifacts) contributes score
0.0 while its weight still participates in the aggregation (no
renormalisation away). -/
theorem C6_weighted_aggregation :
    (∀ (cfg : ComparisonConfig) (t i s : ℚ),
      cfg.weight_text + cfg.weight_images + cfg.weight_structure ≠ 0 →
      overallScore cfg t i s =
        (t * cfg.weight_text + i * cfg.weight_images + s * cfg.weight_structure) /
          (cfg.weight_text + cfg.weight_images + cfg.weight_structure)) ∧
    (∀ (cfg : ComparisonConfig) (t i s : ℚ),
      cfg.weight_text = 0 → cfg.weight_images = 0 → cfg.weight_structure = 0 →
      overallScore cfg t i s = 0) ∧
    (∀ (cfg : ComparisonConfig) (base clone : SiteArtifacts),
      base.texts = [] →
      (Comparer.compare cfg base clone).breakdown.text_score = 0 ∧
      (Comparer.compare cfg base clone).breakdown.overall_score =
        overallScore cfg 0 (Comparer.compare cfg base clone).breakdown.image_score
          (Comparer.compare cfg base clone).breakdown.structure_score) := by
  refine ⟨?_, ?_, ?_⟩
  · intro cfg t i s htot
    unfold overallScore normalised_weights
    rw [if_neg htot]
    field_simp
  · intro cfg t i s h1 h2 h3
    unfold overallScore normalised_weights
    rw [if_pos (by rw [h1, h2, h3]; ring)]
    ring
  · intro cfg base clone hempty
    have htext : compareText cfg base.texts clone.texts = (0, []) := by
      rw [hempty]
      simp [compareText, prepareTextEntries]
    constructor
    · simp [Comparer.compare, htext]
    · simp [Comparer.compare, htext]

/-- C6 witness: the conjuncts applied at concrete weights and scores. -/
theorem C6_weighted_aggregation_witness :
    overallScore {} (1/2) (1/3) (1/4) =
      ((1/2) * (2/5 : ℚ) + (1/3) * (2/5) + (1/4) * (1/5)) / (2/5 + 2/5 + 1/5) ∧
    overallScore { weight_text := 0, weight_images := 0, weight_structure := 0 }
      (1/2) (1/3) (1/4) = 0 ∧
    (Comparer.compare {} { crawl := { root_url := "https://b/", snapshots := [] } }
        { crawl := { root_url := "https://c/", snapshots := [] } }).breakdown.text_score = 0 := by
  refine ⟨C6_weighted_aggregation.1 {} (1/2) (1/3) (1/4) (by norm_num),
    C6_weighted_aggregation.2.1 _ (1/2) (1/3) (1/4) rfl rfl rfl,
    (C6_weighted_aggregation.2.2 {} { crawl := { root_url := "https://b/", snapshots := [] } }
      { crawl := { root_url := "https://c/", snapshots := [] } } rfl).1⟩

/-! ### Structure channel: claim C5 -/

/-- Spec-side Jaccard similarity of two tag-name collections as *sets*
(order and multiplicity ignored): `|A ∩ B| / |A ∪ B|`. -/
def specJaccard (a b : List String) : ℚ :=
  ((a.toFinset ∩ b.toFinset).card : ℚ) / ((a.toFinset ∪ b.toFinset).card : ℚ)

/-- The base-map entries whose canonical path is present in both sites,
paired with the clone signature at the same path. -/
def matchedPairs (baseStructures cloneStructures : List StructureSignature) :
    List (StructureSignature × StructureSignature) :=
  (structMap baseStructures).filterMap
    (fun pb => ((structMap cloneStructures).lookup pb.1).map (fun cs => (pb.2, cs)))

/-- Spec-side structure score: the mean of the per-path set Jaccard
similarities over the paths present in both sites (an empty mean is 0,
matching `scores / len(scores) if scores else 0.0`). -/
def specStructureScore (baseStructures cloneStructures : List StructureSignature) : ℚ :=
  ((matchedPairs baseStructures cloneStructures).map
    (fun pc => specJaccard pc.1.tag_sequence pc.2.tag_sequence)).sum /
    ((matchedPairs baseStructures cloneStructures).length : ℚ)

theorem jaccard_eq_spec (a b : List String) : jaccardSimilarity a b = specJaccard a b := by
  unfold jaccardSimilarity specJaccard
  by_cases h : a.toFinset = ∅ ∨ b.toFinset = ∅
  · rw [if_pos h]
    rcases h with h | h <;> rw [h] <;> simp
  · rw [if_neg h]
    push_neg at h
    have hu : (a.toFinset ∪ b.toFinset).card ≠ 0 := by
      rw [Finset.card_ne_zero]
      rcases Finset.nonempty_iff_ne_empty.mpr h.1 with ⟨x, hx⟩
      exact ⟨x, Finset.mem_union_left _ hx⟩
    rw [if_pos (by exact_mod_cast hu)]

theorem structureScan_scores (cfg : ComparisonConfig)
    (cloneMap : List (String × StructureSignature)) :
    ∀ bl : List (String × StructureSignature),
      (structureScan cfg cloneMap bl).1 =
        bl.filterMap (fun pb => (cloneMap.lookup pb.1).map
          (fun cs => jaccardSimilarity pb.2.tag_sequence cs.tag_sequence))
  | [] => rfl
  | (path, baseSig) :: rest => by
    unfold structureScan
    cases h : cloneMap.lookup path with
    | none => simp [h, structureScan_scores cfg cloneMap rest]
    | some cloneSig => simp [h, structureScan_scores cfg cloneMap rest]

theorem filterMap_jaccard_eq (cloneMap : List (String × StructureSignature)) :
    ∀ bl : List (String × StructureSignature),
      bl.filterMap (fun pb => (cloneMap.lookup pb.1).map
        (fun cs => jaccardSimilarity pb.2.tag_sequence cs.tag_sequence)) =
      (bl.filterMap (fun pb => (cloneMap.lookup pb.1).map (fun cs => (pb.2, cs)))).map
        (fun pc => specJaccard pc.1.tag_sequence pc.2.tag_sequence)
  | [] => rfl
  | (path, baseSig) :: rest => by
    have ih := filterMap_jaccard_eq cloneMap rest
    cases h : cloneMap.lookup path with
    | none => simpa [h] using ih
    | some cs =>
      simp only [jaccard_eq_spec] at ih ⊢
      simp [h, ih]

/-- C5: the structure score is the mean, over the canonical page paths
present in both sites, of the Jaccard similarity of the two pages'
tag-name *sets* (order and multiplicity ignored); unmatched paths do not
enter the average; and the spec's example pair of tag sequences scores
exactly 3/5. -/
theorem C5_structure_score_jaccard_mean :
    (∀ (cfg : ComparisonConfig) (baseStructures cloneStructures : List StructureSignature),
      (compareStructure cfg baseStructures cloneStructures).1 =
        specStructureScore baseStructures cloneStructures) ∧
    jaccardSimilarity ["html", "body", "div", "p"] ["html", "body", "div", "span"] = 3/5 := by
  constructor
  · intro cfg baseStructures cloneStructures
    have hs := structureScan_scores cfg (structMap cloneStructures) (structMap baseStructures)
    rw [filterMap_jaccard_eq] at hs
    unfold compareStructure specStructureScore matchedPairs
    rcases hp : structureScan cfg (structMap cloneStructures) (structMap baseStructures)
      with ⟨scores, ms⟩
    rw [hp] at hs
    have hs2 : scores = List.map (fun pc => specJaccard pc.1.tag_sequence pc.2.tag_sequence)
        (List.filterMap (fun pb => Option.map (fun cs => (pb.2, cs))
          (List.lookup pb.1 (structMap cloneStructures))) (structMap baseStructures)) := hs
    simp only [hp]
    by_cases he : (structMap baseStructures).filterMap
        (fun pb => ((structMap cloneStructures).lookup pb.1).map (fun cs => (pb.2, cs))) = []
    · rw [he] at hs2
      simp at hs2
      simp [hs2, he]
    · have hscores : scores ≠ [] := by
        intro hnil
        rw [hnil] at hs2
        exact he (List.map_eq_nil_iff.mp hs2.symm)
      rw [if_pos hscores, hs2, List.length_map]
  · have h1 : ((["html", "body", "div", "p"] : List String).toFinset ∩
        (["html", "body", "div", "span"] : List String).toFinset).card = 3 := by decide
    have h2 : ((["html", "body", "div", "p"] : List String).toFinset ∪
        (["html", "body", "div", "span"] : List String).toFinset).card = 5 := by decide
    rw [jaccard_eq_spec]
    unfold specJaccard
    rw [h1, h2]
    norm_num

/-! ### Text channel: claim C2 -/

theorem scanLengthBuckets_nil_clone (cfg : ComparisonConfig) (base : PreparedText) :
    ∀ (lens : List Nat) (best : Option TextArtifact × ℚ),
      scanLengthBuckets cfg base [] lens best = best
  | [], _ => rfl
  | len :: lens, best => by
    unfold scanLengthBuckets
    simp [List.filter_nil, scanLengthBuckets_nil_clone cfg base lens best]

theorem bestTextMatch_nil_clone (cfg : ComparisonConfig) (base : PreparedText) :
    bestTextMatch cfg [] base = (none, 0) := by
  unfold bestTextMatch
  simp [scanLengthBuckets_nil_clone]

theorem textScan_total (cfg : ComparisonConfig) (preparedClone : List PreparedText) :
    ∀ (entries : List PreparedText) (seen : List (String × String)),
      (textScan cfg preparedClone entries seen).1 =
        (entries.map (fun b => (bestTextMatch cfg preparedClone b).2)).sum
  | [], _ => by simp [textScan]
  | base :: rest, seen => by
    unfold textScan
    rcases hb : bestTextMatch cfg preparedClone base with ⟨bestClone, bestScore⟩
    cases bestClone with
    | none =>
      simp only [hb, List.map_cons, List.sum_cons]
      rw [← textScan_total cfg preparedClone rest seen]
    | some clone =>
      by_cases ht : bestScore ≥ cfg.text_threshold
      · by_cases hseen : (base.entry.snippet 160, clone.snippet 160) ∈ seen
        · simp only [hb, if_pos ht, if_pos hseen, List.map_cons, List.sum_cons]
          rw [← textScan_total cfg preparedClone rest seen]
        · simp only [hb, if_pos ht, if_neg hseen, List.map_cons, List.sum_cons]
          rw [← textScan_total cfg preparedClone rest
            ((base.entry.snippet 160, clone.snippet 160) :: seen)]
      · simp only [hb, if_neg ht, List.map_cons, List.sum_cons]
        rw [← textScan_total cfg preparedClone rest seen]

/-- C2 (amended): the text score is the arithmetic mean of the per-artifact
best clone scores over the base artifacts that survive preparation (those
with a nonempty token sequence), not over all base artifacts; no
restriction to threshold-passing pairs is applied to the average. -/
theorem C2_text_score_mean (cfg : ComparisonConfig)
    (baseTexts cloneTexts : List TextArtifact) :
    (compareText cfg baseTexts cloneTexts).1 =
      ((prepareTextEntries baseTexts).map
        (fun b => (bestTextMatch cfg (prepareTextEntries cloneTexts) b).2)).sum /
        ((prepareTextEntries baseTexts).length : ℚ) := by
  unfold compareText
  by_cases hg : prepareTextEntries baseTexts = [] ∨ prepareTextEntries cloneTexts = []
  · rw [if_pos hg]
    rcases hg with h | h
    · rw [h]
      simp
    · rw [h]
      simp only [bestTextMatch_nil_clone]
      simp
  · rw [if_neg hg]
    rcases hp : textScan cfg (prepareTextEntries cloneTexts) (prepareTextEntries baseTexts) []
      with ⟨total, ms⟩
    have htot := textScan_total cfg (prepareTextEntries cloneTexts)
      (prepareTextEntries baseTexts) []
    rw [hp] at htot
    simp only [hp]
    rw [show (total, ms).1 = total from rfl] at htot
    rw [htot]

/-- The C2 counterexample artifacts: one tokenisable base text, one base
text with no word characters (it tokenises to nothing), and one clone text
equal to the first. -/
def c2BaseA : TextArtifact := ⟨"https://b/", "body/p", "hello world", 2, []⟩

/-- Base artifact whose text tokenises to nothing. -/
def c2BaseB : TextArtifact := ⟨"https://b/", "body/p", "!!!", 0, []⟩

/-- Clone artifact with the same text as `c2BaseA`. -/
def c2Clone : TextArtifact := ⟨"https://c/", "body/p", "hello world", 2, []⟩

/-- Modelled from the claim wording: the arithmetic mean taken over ALL
base text artifacts of each artifact's best clone similarity score. -/
def claimTextScore (cfg : ComparisonConfig)
    (baseTexts cloneTexts : List TextArtifact) : ℚ :=
  (baseTexts.map (fun a =>
    let tokens := if a.tokens ≠ [] then a.tokens else tokenize_text a.text
    (bestTextMatch cfg (prepareTextEntries cloneTexts) ⟨a, tokens, tokens.toFinset⟩).2)).sum /
    (baseTexts.length : ℚ)

theorem scanCandidates_no_overlap (cfg : ComparisonConfig) (base : PreparedText) :
    ∀ (cands : List PreparedText) (best : Option TextArtifact × ℚ),
      (∀ c ∈ cands, (base.tokenSet ∩ c.tokenSet).card = 0) →
      scanCandidates cfg base cands best = best
  | [], _, _ => rfl
  | cand :: rest, (bc, bs), h => by
    unfold scanCandidates
    rw [if_pos (h cand (List.mem_cons_self cand rest))]
    exact scanCandidates_no_overlap cfg base rest (bc, bs)
      (fun c hc => h c (List.mem_cons_of_mem cand hc))

theorem scanLengthBuckets_no_overlap (cfg : ComparisonConfig) (base : PreparedText)
    (preparedClone : List PreparedText)
    (h : ∀ c ∈ preparedClone, (base.tokenSet ∩ c.tokenSet).card = 0) :
    ∀ lens : List Nat, scanLengthBuckets cfg base preparedClone lens (none, 0) = (none, 0)
  | [] => rfl
  | len :: lens => by
    unfold scanLengthBuckets
    by_cases hc : preparedClone.filter (fun c => c.tokens.length = len) = []
    · rw [if_pos hc]
      exact scanLengthBuckets_no_overlap cfg base preparedClone h lens
    · rw [if_neg hc]
      rw [scanCandidates_no_overlap cfg base _ (none, 0)
        (fun c hcm => h c (List.mem_of_mem_filter hcm))]
      rw [if_neg (by norm_num)]
      exact scanLengthBuckets_no_overlap cfg base preparedClone h lens

/-- C2 counterexample: with one untokenisable base artifact the computed
text score (1) differs from the claimed mean over all base artifacts
(1/2): the code divides by the number of *prepared* base artifacts only. -/
theorem C2_all_artifacts_mean_counterexample :
    (compareText {} [c2BaseA, c2BaseB] [c2Clone]).1 ≠
      claimTextScore {} [c2BaseA, c2BaseB] [c2Clone] := by
  have hprepB : prepareTextEntries [c2BaseA, c2BaseB] =
      [⟨c2BaseA, ["hello", "world"], (["hello", "world"] : List String).toFinset⟩] := by
    decide
  have hprepC : prepareTextEntries [c2Clone] =
      [⟨c2Clone, ["hello", "world"], (["hello", "world"] : List String).toFinset⟩] := by
    decide
  have hbmA : bestTextMatch {} (prepareTextEntries [c2Clone])
      ⟨c2BaseA, ["hello", "world"], (["hello", "world"] : List String).toFinset⟩ =
      (some c2Clone, 1) := by
    rw [hprepC]
    rfl
  have hbmB : bestTextMatch {} (prepareTextEntries [c2Clone])
      ⟨c2BaseB, [], ([] : List String).toFinset⟩ = (none, 0) := by
    rw [hprepC]
    unfold bestTextMatch
    rw [show ([⟨c2Clone, ["hello", "world"], (["hello", "world"] : List String).toFinset⟩]
        : List PreparedText).filter
        (fun c => c.entry.text =
          (⟨c2BaseB, [], ([] : List String).toFinset⟩ : PreparedText).entry.text) = []
      from by decide]
    exact scanLengthBuckets_no_overlap {} _ _ (by decide) _
  have hL : (compareText {} [c2BaseA, c2BaseB] [c2Clone]).1 = 1 := by
    unfold compareText
    rw [hprepB]
    rw [if_neg (by simp [hprepC])]
    rcases hp : textScan {} (prepareTextEntries [c2Clone])
      [⟨c2BaseA, ["hello", "world"], (["hello", "world"] : List String).toFinset⟩] []
      with ⟨total, ms⟩
    have ht := textScan_total {} (prepareTextEntries [c2Clone])
      [⟨c2BaseA, ["hello", "world"], (["hello", "world"] : List String).toFinset⟩] []
    rw [hp] at ht
    have ht2 : total = 1 := by
      rw [show (total, ms).1 = total from rfl] at ht
      rw [ht, List.map_cons, List.map_nil, hbmA]
      simp
    simp only [hp, ht2]
    norm_num
  have hR : claimTextScore {} [c2BaseA, c2BaseB] [c2Clone] = 1/2 := by
    unfold claimTextScore
    rw [List.map_cons, List.map_cons, List.map_nil]
    rw [show (if c2BaseA.tokens ≠ [] then c2BaseA.tokens else tokenize_text c2BaseA.text) =
      ["hello", "world"] from by decide]
    rw [show (if c2BaseB.tokens ≠ [] then c2BaseB.tokens else tokenize_text c2BaseB.text) =
      ([] : List String) from by decide]
    simp only [hbmA, hbmB]
    norm_num
  rw [hL, hR]
  norm_num

/-! ### Image channel: claim C4 -/

/-- A hashed image artifact whose hash is a well-formed 16-digit (64-bit)
hex string, the shape the extractor produces. -/
def ValidHash (img : ImageArtifact) : Prop :=
  ∃ h, img.hash_bits = some h ∧ h.data.length = 16 ∧
    ∀ c ∈ h.data, (hexDigitVal c).isSome = true

/-- `popcount n ≤ k` whenever `n < 2 ^ k`. -/
theorem popcount_le_of_lt : ∀ (k n : Nat), n < 2 ^ k → popcount n ≤ k
  | 0, n, h => by
    have : n = 0 := by simpa using Nat.lt_one_iff.mp (by simpa using h)
    subst this
    exact le_refl _
  | k + 1, n, h => by
    by_cases hz : n = 0
    · subst hz
      show popcount 0 ≤ k + 1
      simp [show popcount 0 = 0 from rfl]
    · rw [popcount_div2 n hz]
      have hp : (2 : ℕ) ^ (k + 1) = 2 * 2 ^ k := by rw [pow_succ]; ring
      have hdiv : n / 2 < 2 ^ k := by omega
      have := popcount_le_of_lt k (n / 2) hdiv
      omega

theorem hamming_valid {b c : ImageArtifact} (hb : ValidHash b) (hc : ValidHash c) :
    ∃ d, hamming_distance (hashStr b) (hashStr c) = .ok d ∧ d ≤ 64 := by
  obtain ⟨hbs, hbeq, hblen, hbhex⟩ := hb
  obtain ⟨hcs, hceq, hclen, hchex⟩ := hc
  have hbne : hbs.data ≠ [] := by
    intro hnil
    rw [hnil] at hblen
    simp at hblen
  have hcne : hcs.data ≠ [] := by
    intro hnil
    rw [hnil] at hclen
    simp at hclen
  obtain ⟨va, hva, hvalt⟩ := hexVal_some_lt hbs.data hbhex hbne
  obtain ⟨vb, hvb, hvblt⟩ := hexVal_some_lt hcs.data hchex hcne
  refine ⟨popcount (va ^^^ vb), ?_, ?_⟩
  · unfold hashStr hamming_distance
    rw [hbeq, hceq]
    simp only [Option.getD_some]
    rw [if_neg (by rw [hblen, hclen]; omega), hva, hvb]
  · have hva64 : va < 2 ^ 64 := by
      rw [hblen, pow16_eq] at hvalt
      simpa using hvalt
    have hvb64 : vb < 2 ^ 64 := by
      rw [hclen, pow16_eq] at hvblt
      simpa using hvblt
    exact popcount_le_of_lt 64 _ (xor_lt_pow2 64 va vb hva64 hvb64)

/-- Shorthand: the pair `(b, c)` computes Hamming distance `d`. -/
def okDist (b c : ImageArtifact) (d : Nat) : Prop :=
  hamming_distance (hashStr b) (hashStr c) = .ok d

theorem okDist_unique {b c : ImageArtifact} {d d' : Nat}
    (h : okDist b c d) (h' : okDist b c d') : d' = d := by
  unfold okDist at h h'
  rw [h] at h'
  exact (Except.ok.inj h').symm

theorem bestImageLoop_cons_err (b cand : ImageArtifact) (rest : List ImageArtifact)
    (obi : Option ImageArtifact) (bd : Nat) (e : String)
    (hd : hamming_distance (hashStr b) (hashStr cand) = .error e) :
    bestImageLoop b (cand :: rest) (obi, bd) = bestImageLoop b rest (obi, bd) := by
  conv_lhs => unfold bestImageLoop
  rw [hd]

theorem bestImageLoop_cons_ok (b cand : ImageArtifact) (rest : List ImageArtifact)
    (obi : Option ImageArtifact) (bd d : Nat)
    (hd : hamming_distance (hashStr b) (hashStr cand) = .ok d) :
    bestImageLoop b (cand :: rest) (obi, bd) =
      if d < bd ∨ (d = bd ∧ (cand.bytes_size.getD 0 : Int) > bytesIntOpt obi) then
        bestImageLoop b rest (some cand, d)
      else bestImageLoop b rest (obi, bd) := by
  conv_lhs => unfold bestImageLoop
  rw [hd]

/-- Full post-condition of the inner loop of `_compare_images`, relative to
an arbitrary accumulator: the final distance is minimal among the
accumulator and all computable candidate distances, the held image attains
the final distance, a `none` result means nothing was ever held, and among
candidates attaining the final distance the held image maximises the byte
count (first-seen wins exact byte ties). -/
theorem bestImageLoop_post (b : ImageArtifact) :
    ∀ (cl : List ImageArtifact) (obi : Option ImageArtifact) (bd : Nat),
      (bestImageLoop b cl (obi, bd)).2 ≤ bd ∧
      (∀ c ∈ cl, ∀ dc, okDist b c dc → (bestImageLoop b cl (obi, bd)).2 ≤ dc) ∧
      ((∀ bi, obi = some bi → okDist b bi bd) →
        ∀ bi, (bestImageLoop b cl (obi, bd)).1 = some bi →
          okDist b bi (bestImageLoop b cl (obi, bd)).2 ∧ (bi ∈ cl ∨ obi = some bi)) ∧
      ((bestImageLoop b cl (obi, bd)).1 = none → obi = none) ∧
      (∀ c ∈ cl, ∀ dc, okDist b c dc → dc = (bestImageLoop b cl (obi, bd)).2 →
        (c.bytes_size.getD 0 : Int) ≤ bytesIntOpt (bestImageLoop b cl (obi, bd)).1) ∧
      (bd = (bestImageLoop b cl (obi, bd)).2 →
        bytesIntOpt obi ≤ bytesIntOpt (bestImageLoop b cl (obi, bd)).1)
  | [], obi, bd => by
    refine ⟨le_rfl, by simp, ?_, ?_, by simp, fun _ => le_rfl⟩
    · intro hyp bi hbi
      exact ⟨hyp bi hbi, Or.inr hbi⟩
    · intro h
      exact h
  | cand :: rest, obi, bd => by
    cases hd : hamming_distance (hashStr b) (hashStr cand) with
    | error e =>
      rw [bestImageLoop_cons_err b cand rest obi bd e hd]
      obtain ⟨p1, p2, p3, p4, p5, p6⟩ := bestImageLoop_post b rest obi bd
      refine ⟨p1, ?_, ?_, p4, ?_, p6⟩
      · intro c hc dc hdc
        rcases List.mem_cons.mp hc with rfl | hc2
        · unfold okDist at hdc
          rw [hd] at hdc
          simp at hdc
        · exact p2 c hc2 dc hdc
      · intro hyp bi hbi
        obtain ⟨ho, hm⟩ := p3 hyp bi hbi
        exact ⟨ho, hm.imp (List.mem_cons_of_mem cand) id⟩
      · intro c hc dc hdc hde
        rcases List.mem_cons.mp hc with rfl | hc2
        · unfold okDist at hdc
          rw [hd] at hdc
          simp at hdc
        · exact p5 c hc2 dc hdc hde
    | ok d =>
      rw [bestImageLoop_cons_ok b cand rest obi bd d hd]
      by_cases hC : d < bd ∨ (d = bd ∧ (cand.bytes_size.getD 0 : Int) > bytesIntOpt obi)
      · rw [if_pos hC]
        obtain ⟨p1, p2, p3, p4, p5, p6⟩ := bestImageLoop_post b rest (some cand) d
        have hdbd : d ≤ bd := by
          rcases hC with h | h
          · omega
          · omega
        refine ⟨le_trans p1 hdbd, ?_, ?_, ?_, ?_, ?_⟩
        · intro c hc dc hdc
          rcases List.mem_cons.mp hc with rfl | hc2
          · have hdcd : dc = d := okDist_unique (show okDist b c d from hd) hdc
            have := p1
            omega
          · exact p2 c hc2 dc hdc
        · intro _ bi hbi
          have hyp2 : ∀ bi, some cand = some bi → okDist b bi d := by
            intro bi2 heq
            cases Option.some.inj heq
            exact hd
          obtain ⟨ho, hm⟩ := p3 hyp2 bi hbi
          rcases hm with hm | hm
          · exact ⟨ho, Or.inl (List.mem_cons_of_mem cand hm)⟩
          · cases Option.some.inj hm
            exact ⟨ho, Or.inl (List.mem_cons_self cand rest)⟩
        · intro hn
          exact absurd (p4 hn) (by simp)
        · intro c hc dc hdc hde
          rcases List.mem_cons.mp hc with rfl | hc2
          · have hdcd : dc = d := okDist_unique (show okDist b c d from hd) hdc
            calc (c.bytes_size.getD 0 : Int) = bytesIntOpt (some c) := rfl
              _ ≤ bytesIntOpt (bestImageLoop b rest (some c, d)).1 := p6 (by omega)
          · exact p5 c hc2 dc hdc hde
        · intro hbd
          have hr2d : (bestImageLoop b rest (some cand, d)).2 ≤ d := p1
          rcases hC with h | h
          · omega
          · have hchain := p6 (by omega)
            calc bytesIntOpt obi ≤ (cand.bytes_size.getD 0 : Int) := le_of_lt h.2
              _ = bytesIntOpt (some cand) := rfl
              _ ≤ _ := hchain
      · rw [if_neg hC]
        obtain ⟨p1, p2, p3, p4, p5, p6⟩ := bestImageLoop_post b rest obi bd
        push_neg at hC
        refine ⟨p1, ?_, ?_, p4, ?_, p6⟩
        · intro c hc dc hdc
          rcases List.mem_cons.mp hc with rfl | hc2
          · have hdcd : dc = d := okDist_unique (show okDist b c d from hd) hdc
            have : bd ≤ d := hC.1
            omega
          · exact p2 c hc2 dc hdc
        · intro hyp bi hbi
          obtain ⟨ho, hm⟩ := p3 hyp bi hbi
          exact ⟨ho, hm.imp (List.mem_cons_of_mem cand) id⟩
        · intro c hc dc hdc hde
          rcases List.mem_cons.mp hc with rfl | hc2
          · have hdcd : dc = d := okDist_unique (show okDist b c d from hd) hdc
            have hbdle : bd ≤ d := hC.1
            have hr2 : (bestImageLoop b rest (obi, bd)).2 ≤ bd := p1
            have hdbd : d = bd := by omega
            have hbytes : (c.bytes_size.getD 0 : Int) ≤ bytesIntOpt obi := hC.2 hdbd
            calc (c.bytes_size.getD 0 : Int) ≤ bytesIntOpt obi := hbytes
              _ ≤ bytesIntOpt (bestImageLoop b rest (obi, bd)).1 := p6 (by omega)
          · exact p5 c hc2 dc hdc hde

theorem insertDescBy_perm {α : Type} (ge : α → α → Bool) (x : α) :
    ∀ l : List α, (insertDescBy ge x l).Perm (x :: l)
  | [] => List.Perm.refl _
  | y :: ys => by
    unfold insertDescBy
    by_cases h : ge x y
    · rw [if_pos h]
    · rw [if_neg h]
      exact ((insertDescBy_perm ge x ys).cons y).trans (List.Perm.swap x y ys)

theorem sortDescBy_perm {α : Type} (ge : α → α → Bool) :
    ∀ l : List α, (sortDescBy ge l).Perm l
  | [] => List.Perm.refl _
  | x :: xs =>
    (insertDescBy_perm ge x (sortDescBy ge xs)).trans ((sortDescBy_perm ge xs).cons x)

theorem imagesScan_total (cfg : ComparisonConfig) (cloneList : List ImageArtifact) :
    ∀ (bl : List ImageArtifact) (seen : List (String × String)),
      (∀ b ∈ bl, (bestImageLoop b cloneList (none, 64)).1 ≠ none) →
      (imagesScan cfg cloneList bl seen).1 =
        (bl.map (fun b => 1 - ((bestImageLoop b cloneList (none, 64)).2 : ℚ) / 64)).sum
  | [], _, _ => by simp [imagesScan]
  | base :: rest, seen, hall => by
    have hrest : ∀ b ∈ rest, (bestImageLoop b cloneList (none, 64)).1 ≠ none :=
      fun b hb => hall b (List.mem_cons_of_mem base hb)
    unfold imagesScan
    rcases hb : bestImageLoop base cloneList (none, 64) with ⟨obest, bestDist⟩
    cases obest with
    | none => exact absurd (by rw [hb]) (hall base (List.mem_cons_self base rest))
    | some best =>
      by_cases ht : bestDist ≤ cfg.image_hash_threshold
      · by_cases hseen : (imageKey base, imageKey best) ∈ seen
        · simp only [if_pos ht, if_pos hseen, List.map_cons, List.sum_cons, hb]
          rw [imagesScan_total cfg cloneList rest seen hrest]
        · simp only [if_pos ht, if_neg hseen, List.map_cons, List.sum_cons, hb]
          rw [imagesScan_total cfg cloneList rest ((imageKey base, imageKey best) :: seen) hrest]
      · simp only [if_neg ht, List.map_cons, List.sum_cons, hb]
        rw [imagesScan_total cfg cloneList rest seen hrest]

theorem imagesScan_matches_le (cfg : ComparisonConfig) (cloneList : List ImageArtifact) :
    ∀ (bl : List ImageArtifact) (seen : List (String × String)),
      ∀ m ∈ (imagesScan cfg cloneList bl seen).2,
        m.hamming_dist ≤ cfg.image_hash_threshold
  | [], _, m, hm => by simp [imagesScan] at hm
  | base :: rest, seen, m, hm => by
    rw [imagesScan] at hm
    revert hm
    rcases hb : bestImageLoop base cloneList (none, 64) with ⟨obest, bestDist⟩
    cases obest with
    | none =>
      intro hm
      exact imagesScan_matches_le cfg cloneList rest seen m hm
    | some best =>
      by_cases ht : bestDist ≤ cfg.image_hash_threshold
      · by_cases hseen : (imageKey base, imageKey best) ∈ seen
        · rcases hi : imagesScan cfg cloneList rest seen with ⟨total, ms⟩
          simp only [if_pos ht, if_pos hseen, hi]
          intro hm
          have hrec := imagesScan_matches_le cfg cloneList rest seen m
          rw [hi] at hrec
          exact hrec hm
        · rcases hi : imagesScan cfg cloneList rest
            ((imageKey base, imageKey best) :: seen) with ⟨total, ms⟩
          simp only [if_pos ht, if_neg hseen, hi]
          intro hm
          rcases List.mem_cons.mp hm with rfl | hm2
          · exact ht
          · have hrec := imagesScan_matches_le cfg cloneList rest
              ((imageKey base, imageKey best) :: seen) m
            rw [hi] at hrec
            exact hrec hm2
      · rcases hi : imagesScan cfg cloneList rest seen with ⟨total, ms⟩
        simp only [if_neg ht, hi]
        intro hm
        have hrec := imagesScan_matches_le cfg cloneList rest seen m
        rw [hi] at hrec
        exact hrec hm

theorem bestImageLoop_spec (b : ImageArtifact) (cl : List ImageArtifact)
    (hb : ValidHash b) (hcl : ∀ c ∈ cl, ValidHash c) (hne : cl ≠ []) :
    ∃ best dist, bestImageLoop b cl (none, 64) = (some best, dist) ∧ best ∈ cl ∧
      okDist b best dist ∧
      (∀ c ∈ cl, ∀ dc, okDist b c dc → dist ≤ dc) ∧
      (∀ c ∈ cl, ∀ dc, okDist b c dc → dc = dist →
        (c.bytes_size.getD 0 : Int) ≤ (best.bytes_size.getD 0 : Int)) := by
  match cl, hne with
  | c₀ :: cs, _ =>
    obtain ⟨d₀, hd₀, hd64⟩ := hamming_valid hb (hcl c₀ (List.mem_cons_self c₀ cs))
    have hcond : d₀ < 64 ∨ (d₀ = 64 ∧ (c₀.bytes_size.getD 0 : Int) > bytesIntOpt none) := by
      by_cases h : d₀ < 64
      · exact Or.inl h
      · refine Or.inr ⟨by omega, ?_⟩
        show _ > (-1 : Int)
        have : (0 : Int) ≤ (c₀.bytes_size.getD 0 : Int) := Int.natCast_nonneg _
        omega
    have hred : bestImageLoop b (c₀ :: cs) (none, 64) = bestImageLoop b cs (some c₀, d₀) := by
      rw [bestImageLoop_cons_ok b c₀ cs none 64 d₀ hd₀, if_pos hcond]
    obtain ⟨p1, p2, p3, p4, p5, p6⟩ := bestImageLoop_post b cs (some c₀) d₀
    rcases hr : bestImageLoop b cs (some c₀, d₀) with ⟨obest, rdist⟩
    rw [hr] at p1 p2 p3 p4 p5 p6
    cases obest with
    | none => exact absurd (p4 rfl) (by simp)
    | some best =>
      have hyp : ∀ bi, (some c₀ : Option ImageArtifact) = some bi → okDist b bi d₀ := by
        intro bi heq
        cases Option.some.inj heq
        exact hd₀
      obtain ⟨hok, hmem⟩ := p3 hyp best rfl
      refine ⟨best, rdist, by rw [hred, hr], ?_, hok, ?_, ?_⟩
      · rcases hmem with hm | hm
        · exact List.mem_cons_of_mem c₀ hm
        · cases Option.some.inj hm
          exact List.mem_cons_self c₀ cs
      · intro c hc dc hdc
        rcases List.mem_cons.mp hc with rfl | hc2
        · have : dc = d₀ := okDist_unique hd₀ hdc
          have := p1
          omega
        · exact p2 c hc2 dc hdc
      · intro c hc dc hdc hde
        rcases List.mem_cons.mp hc with rfl | hc2
        · have hdc0 : dc = d₀ := okDist_unique hd₀ hdc
          have hchain := p6 (by omega)
          calc (c.bytes_size.getD 0 : Int) = bytesIntOpt (some c) := rfl
            _ ≤ bytesIntOpt (some best) := hchain
            _ = (best.bytes_size.getD 0 : Int) := rfl
        · exact p5 c hc2 dc hdc hde

/-- C4: for every base image with a (well-formed 64-bit) hash the image
channel selects the clone image with the smallest Hamming distance, ties
broken towards the larger byte size; the image score is the mean of the
best similarities `1 - distance/64` over all base images with hashes; and
every recorded match is within the configured maximum Hamming distance. -/
theorem C4_image_channel (cfg : ComparisonConfig) (baseImages cloneImages : List ImageArtifact)
    (hbv : ∀ img ∈ baseImages.filter hasHash, ValidHash img)
    (hcv : ∀ img ∈ cloneImages.filter hasHash, ValidHash img)
    (hbne : baseImages.filter hasHash ≠ []) (hcne : cloneImages.filter hasHash ≠ []) :
    (∀ b ∈ baseImages.filter hasHash,
      ∃ best dist,
        bestImageLoop b (cloneImages.filter hasHash) (none, 64) = (some best, dist) ∧
        best ∈ cloneImages.filter hasHash ∧ okDist b best dist ∧
        (∀ c ∈ cloneImages.filter hasHash, ∀ dc, okDist b c dc → dist ≤ dc) ∧
        (∀ c ∈ cloneImages.filter hasHash, ∀ dc, okDist b c dc → dc = dist →
          (c.bytes_size.getD 0 : Int) ≤ (best.bytes_size.getD 0 : Int))) ∧
    (compareImages cfg baseImages cloneImages).1 =
      ((baseImages.filter hasHash).map
        (fun b => 1 - ((bestImageLoop b (cloneImages.filter hasHash) (none, 64)).2 : ℚ) / 64)).sum /
        ((baseImages.filter hasHash).length : ℚ) ∧
    ∀ m ∈ (compareImages cfg baseImages cloneImages).2,
      m.hamming_dist ≤ cfg.image_hash_threshold := by
  have hspec := fun b hb => bestImageLoop_spec b (cloneImages.filter hasHash)
    (hbv b hb) hcv hcne
  have hsome : ∀ b ∈ baseImages.filter hasHash,
      (bestImageLoop b (cloneImages.filter hasHash) (none, 64)).1 ≠ none := by
    intro b hb
    obtain ⟨best, dist, heq, _⟩ := hspec b hb
    rw [heq]
    simp
  refine ⟨hspec, ?_, ?_⟩
  · unfold compareImages
    rw [if_neg (by exact fun h => h.elim hbne hcne)]
    rcases hp : imagesScan cfg (cloneImages.filter hasHash) (baseImages.filter hasHash) []
      with ⟨total, ms⟩
    have ht := imagesScan_total cfg (cloneImages.filter hasHash)
      (baseImages.filter hasHash) [] hsome
    rw [hp] at ht
    simp only [hp]
    rw [show (total, ms).1 = total from rfl] at ht
    rw [ht]
  · intro m hm
    revert hm
    unfold compareImages
    rw [if_neg (by exact fun h => h.elim hbne hcne)]
    rcases hp : imagesScan cfg (cloneImages.filter hasHash) (baseImages.filter hasHash) []
      with ⟨total, ms⟩
    simp only [hp]
    intro hm
    have hm2 : m ∈ sortDescBy imageMatchGe ms := List.take_subset _ _ hm
    have hm3 : m ∈ ms := (sortDescBy_perm imageMatchGe ms).mem_iff.mp hm2
    have hrec := imagesScan_matches_le cfg (cloneImages.filter hasHash)
      (baseImages.filter hasHash) [] m
    rw [hp] at hrec
    exact hrec hm3

/-- C4 witness: a one-image site compared with an identical copy. -/
theorem C4_image_channel_witness :
    (∀ b ∈ ([⟨"https://b/", "https://b/l.png", some "00ff00ff00ff00ff", some 10,
        some "image/png"⟩] : List ImageArtifact).filter hasHash,
      ∃ best dist,
        bestImageLoop b (([⟨"https://c/", "https://c/l.png", some "00ff00ff00ff00ff", some 12,
            some "image/png"⟩] : List ImageArtifact).filter hasHash) (none, 64) =
          (some best, dist) ∧
        best ∈ ([⟨"https://c/", "https://c/l.png", some "00ff00ff00ff00ff", some 12,
            some "image/png"⟩] : List ImageArtifact).filter hasHash ∧
        okDist b best dist ∧
        (∀ c ∈ ([⟨"https://c/", "https://c/l.png", some "00ff00ff00ff00ff", some 12,
            some "image/png"⟩] : List ImageArtifact).filter hasHash,
          ∀ dc, okDist b c dc → dist ≤ dc) ∧
        (∀ c ∈ ([⟨"https://c/", "https://c/l.png", some "00ff00ff00ff00ff", some 12,
            some "image/png"⟩] : List ImageArtifact).filter hasHash,
          ∀ dc, okDist b c dc → dc = dist →
            (c.bytes_size.getD 0 : Int) ≤ (best.bytes_size.getD 0 : Int))) ∧
    (compareImages {} [⟨"https://b/", "https://b/l.png", some "00ff00ff00ff00ff", some 10,
        some "image/png"⟩] [⟨"https://c/", "https://c/l.png", some "00ff00ff00ff00ff", some 12,
        some "image/png"⟩]).1 =
      ((([⟨"https://b/", "https://b/l.png", some "00ff00ff00ff00ff", some 10,
          some "image/png"⟩] : List ImageArtifact).filter hasHash).map
        (fun b => 1 - ((bestImageLoop b (([⟨"https://c/", "https://c/l.png",
            some "00ff00ff00ff00ff", some 12, some "image/png"⟩] :
            List ImageArtifact).filter hasHash) (none, 64)).2 : ℚ) / 64)).sum /
        ((([⟨"https://b/", "https://b/l.png", some "00ff00ff00ff00ff", some 10,
          some "image/png"⟩] : List ImageArtifact).filter hasHash).length : ℚ) ∧
    ∀ m ∈ (compareImages {} [⟨"https://b/", "https://b/l.png", some "00ff00ff00ff00ff",
        some 10, some "image/png"⟩] [⟨"https://c/", "https://c/l.png",
        some "00ff00ff00ff00ff", some 12, some "image/png"⟩]).2,
      m.hamming_dist ≤ ({} : ComparisonConfig).image_hash_threshold :=
  C4_image_channel {} _ _
    (by
      intro img hi
      refine ⟨"00ff00ff00ff00ff", ?_, by decide, by decide⟩
      have : img = ⟨"https://b/", "https://b/l.png", some "00ff00ff00ff00ff", some 10,
          some "image/png"⟩ := by
        simpa [hasHash] using hi
      rw [this])
    (by
      intro img hi
      refine ⟨"00ff00ff00ff00ff", ?_, by decide, by decide⟩
      have : img = ⟨"https://c/", "https://c/l.png", some "00ff00ff00ff00ff", some 12,
          some "image/png"⟩ := by
        simpa [hasHash] using hi
      rw [this])
    (by decide) (by decide)

/-! ### Text channel: claim C8 (snippet-pair deduplication) -/

/-- The token sequence `_prepare_text_entries` attaches to an artifact:
the stored tokens, or the tokenised text when none are stored. -/
def entryTokens (e : TextArtifact) : List String :=
  if e.tokens ≠ [] then e.tokens else tokenize_text e.text

theorem prepareTextEntries_cons (e : TextArtifact) (rest : List TextArtifact) :
    prepareTextEntries (e :: rest) =
      if entryTokens e = [] then prepareTextEntries rest
      else ⟨e, entryTokens e, (entryTokens e).toFinset⟩ :: prepareTextEntries rest := by
  unfold prepareTextEntries
  rw [List.filterMap_cons]
  by_cases h : entryTokens e = []
  · rw [if_pos h]
    rw [show (let tokens := if e.tokens ≠ [] then e.tokens else tokenize_text e.text
        if tokens = [] then none
        else some (⟨e, tokens, tokens.toFinset⟩ : PreparedText)) = none from by
      show (if entryTokens e = [] then none else _) = none
      rw [if_pos h]]
  · rw [if_neg h]
    rw [show (let tokens := if e.tokens ≠ [] then e.tokens else tokenize_text e.text
        if tokens = [] then none
        else some (⟨e, tokens, tokens.toFinset⟩ : PreparedText)) =
        some ⟨e, entryTokens e, (entryTokens e).toFinset⟩ from by
      show (if entryTokens e = [] then (none : Option PreparedText)
          else some ⟨e, entryTokens e, (entryTokens e).toFinset⟩) =
        some ⟨e, entryTokens e, (entryTokens e).toFinset⟩
      rw [if_neg h]]

theorem bestTextMatch_exact_cons (cfg : ComparisonConfig) (pc : PreparedText)
    (rest : List PreparedText) (base : PreparedText)
    (h : pc.entry.text = base.entry.text) :
    bestTextMatch cfg (pc :: rest) base = (some pc.entry, 1) := by
  unfold bestTextMatch
  rw [List.filter_cons_of_pos (by simp [h])]

theorem snippet_congr {a b : TextArtifact} (h : a.text = b.text) (n : Nat) :
    a.snippet n = b.snippet n := by
  unfold TextArtifact.snippet
  rw [h]

/-- C8: two base text artifacts on the same page with identical text and one
clone artifact with that same text produce exactly one reportable text match
(the two would-be matches share the same 160-character snippet pair, and the
second is deduplicated), with similarity 1 against the clone artifact. -/
theorem C8_snippet_pair_dedup (cfg : ComparisonConfig) (b1 b2 c : TextArtifact)
    (hpage : b1.page_url = b2.page_url)
    (htext : b1.text = b2.text) (hct : c.text = b1.text)
    (h1 : entryTokens b1 ≠ []) (h2 : entryTokens b2 ≠ []) (h3 : entryTokens c ≠ [])
    (hthr : cfg.text_threshold ≤ 1) (hlim : 1 ≤ cfg.top_match_limit) :
    ∃ flag : Bool, (compareText cfg [b1, b2] [c]).2 = [⟨b1, c, 1, flag⟩] := by
  have hpB : prepareTextEntries [b1, b2] =
      [⟨b1, entryTokens b1, (entryTokens b1).toFinset⟩,
        ⟨b2, entryTokens b2, (entryTokens b2).toFinset⟩] := by
    rw [prepareTextEntries_cons, if_neg h1, prepareTextEntries_cons, if_neg h2]
    rfl
  have hpC : prepareTextEntries [c] =
      [⟨c, entryTokens c, (entryTokens c).toFinset⟩] := by
    rw [prepareTextEntries_cons, if_neg h3]
    rfl
  have hbm1 : bestTextMatch cfg [⟨c, entryTokens c, (entryTokens c).toFinset⟩]
      ⟨b1, entryTokens b1, (entryTokens b1).toFinset⟩ = (some c, 1) :=
    bestTextMatch_exact_cons cfg _ _ _ hct
  have hbm2 : bestTextMatch cfg [⟨c, entryTokens c, (entryTokens c).toFinset⟩]
      ⟨b2, entryTokens b2, (entryTokens b2).toFinset⟩ = (some c, 1) :=
    bestTextMatch_exact_cons cfg _ _ _ (hct.trans htext)
  have hstep2 : textScan cfg [⟨c, entryTokens c, (entryTokens c).toFinset⟩]
      [⟨b2, entryTokens b2, (entryTokens b2).toFinset⟩]
      [(b1.snippet 160, c.snippet 160)] = (1 + 0, []) := by
    unfold textScan
    simp only [hbm2,
      show (⟨b2, entryTokens b2, (entryTokens b2).toFinset⟩ : PreparedText).entry = b2 from rfl]
    rw [if_pos (ge_iff_le.mpr hthr)]
    rw [if_pos (show (b2.snippet 160, c.snippet 160) ∈
        [(b1.snippet 160, c.snippet 160)] from by
      rw [snippet_congr htext.symm 160]
      exact List.mem_singleton.mpr rfl)]
    rfl
  have hstep1 : textScan cfg [⟨c, entryTokens c, (entryTokens c).toFinset⟩]
      [⟨b1, entryTokens b1, (entryTokens b1).toFinset⟩,
        ⟨b2, entryTokens b2, (entryTokens b2).toFinset⟩] [] =
      (1 + (1 + 0), [⟨b1, c, 1, decide ((1 : ℚ) ≥ cfg.high_confidence_threshold)⟩]) := by
    unfold textScan
    simp only [hbm1,
      show (⟨b1, entryTokens b1, (entryTokens b1).toFinset⟩ : PreparedText).entry = b1 from rfl]
    rw [if_pos (ge_iff_le.mpr hthr)]
    rw [if_neg (List.not_mem_nil ((b1.snippet 160, c.snippet 160)))]
    rw [hstep2]
  refine ⟨decide ((1 : ℚ) ≥ cfg.high_confidence_threshold), ?_⟩
  unfold compareText
  rw [hpB, hpC]
  rw [if_neg (by simp)]
  rw [hstep1]
  have hcur : curateTextMatches []
      [⟨b1, c, 1, decide ((1 : ℚ) ≥ cfg.high_confidence_threshold)⟩] =
      ([⟨b1, c, 1, decide ((1 : ℚ) ≥ cfg.high_confidence_threshold)⟩], []) := by
    unfold curateTextMatches
    rw [if_neg (List.not_mem_nil _)]
    rfl
  obtain ⟨n, hn⟩ : ∃ n, cfg.top_match_limit = n + 1 :=
    ⟨cfg.top_match_limit - 1, by omega⟩
  simp only [show sortDescBy textMatchGe
      [⟨b1, c, 1, decide ((1 : ℚ) ≥ cfg.high_confidence_threshold)⟩] =
      [⟨b1, c, 1, decide ((1 : ℚ) ≥ cfg.high_confidence_threshold)⟩] from rfl,
    hcur, hn]
  simp [List.take_succ_cons]

/-- C8 witness: the duplicated-snippet scenario of the test-suite, with
default configuration. -/
theorem C8_snippet_pair_dedup_witness :
    ∃ flag : Bool,
      (compareText {} [⟨"https://legit", "body/div1", "Claim your reward now", 4, []⟩,
          ⟨"https://legit", "body/div2", "Claim your reward now", 4, []⟩]
        [⟨"https://clone", "body/div1", "Claim your reward now", 4, []⟩]).2 =
      [⟨⟨"https://legit", "body/div1", "Claim your reward now", 4, []⟩,
        ⟨"https://clone", "body/div1", "Claim your reward now", 4, []⟩, 1, flag⟩] :=
  C8_snippet_pair_dedup {} _ _ _ rfl rfl rfl (by decide) (by decide) (by decide)
    (show (3/4 : ℚ) ≤ 1 by norm_num) (show 1 ≤ 10 by decide)

/-! ### Self-comparison: claim C3 -/

theorem okDist_self {b : ImageArtifact} (hb : ValidHash b) : okDist b b 0 := by
  obtain ⟨hs, heq, hlen, hhex⟩ := hb
  have hne : hs.data ≠ [] := by
    intro hnil
    rw [hnil] at hlen
    simp at hlen
  obtain ⟨v, hv, _⟩ := hexVal_some_lt hs.data hhex hne
  unfold okDist hashStr hamming_distance
  rw [heq]
  simp only [Option.getD_some]
  rw [if_neg (by simp), hv]
  show Except.ok (popcount (v ^^^ v)) = Except.ok 0
  rw [Nat.xor_self]
  rfl

theorem bestTextMatch_mem_text (cfg : ComparisonConfig) (P : List PreparedText)
    (b : PreparedText) (hb : b ∈ P) : (bestTextMatch cfg P b).2 = 1 := by
  unfold bestTextMatch
  rcases hf : P.filter (fun c => decide (c.entry.text = b.entry.text)) with _ | ⟨c0, r0⟩
  · exact absurd (hf ▸ List.mem_filter.mpr ⟨hb, by simp⟩) (List.not_mem_nil b)
  · rw [hf]

theorem compareText_self (cfg : ComparisonConfig) (texts : List TextArtifact)
    (h : prepareTextEntries texts ≠ []) :
    (compareText cfg texts texts).1 = 1 := by
  unfold compareText
  rw [if_neg (by simp [h])]
  rcases hp : textScan cfg (prepareTextEntries texts) (prepareTextEntries texts) []
    with ⟨total, ms⟩
  have ht := textScan_total cfg (prepareTextEntries texts) (prepareTextEntries texts) []
  rw [hp] at ht
  simp only [hp]
  rw [show (total, ms).1 = total from rfl] at ht
  rw [ht]
  have hmap : (prepareTextEntries texts).map
      (fun b => (bestTextMatch cfg (prepareTextEntries texts) b).2) =
      List.replicate (prepareTextEntries texts).length 1 := by
    rw [List.eq_replicate_iff]
    refine ⟨List.length_map _ _, ?_⟩
    intro x hx
    obtain ⟨b, hb, hbx⟩ := List.mem_map.mp hx
    rw [← hbx]
    exact bestTextMatch_mem_text cfg _ b hb
  rw [hmap, List.sum_replicate, nsmul_eq_mul, mul_one]
  exact div_self (Nat.cast_ne_zero.mpr (fun h0 => h (List.length_eq_zero.mp h0)))

theorem compareImages_self (cfg : ComparisonConfig) (images : List ImageArtifact)
    (hv : ∀ img ∈ images.filter hasHash, ValidHash img)
    (hne : images.filter hasHash ≠ []) :
    (compareImages cfg images images).1 = 1 := by
  have hd0 : ∀ b ∈ images.filter hasHash,
      (bestImageLoop b (images.filter hasHash) (none, 64)).2 = 0 := by
    intro b hb
    obtain ⟨best, dist, heq, hmem, hok, hmin, _⟩ :=
      bestImageLoop_spec b (images.filter hasHash) (hv b hb) hv hne
    have h0 : dist ≤ 0 := hmin b hb 0 (okDist_self (hv b hb))
    rw [heq]
    omega
  have hsome : ∀ b ∈ images.filter hasHash,
      (bestImageLoop b (images.filter hasHash) (none, 64)).1 ≠ none := by
    intro b hb
    obtain ⟨best, dist, heq, _⟩ := bestImageLoop_spec b (images.filter hasHash) (hv b hb) hv hne
    rw [heq]
    simp
  unfold compareImages
  rw [if_neg (by simp [hne])]
  rcases hp : imagesScan cfg (images.filter hasHash) (images.filter hasHash) []
    with ⟨total, ms⟩
  have ht := imagesScan_total cfg (images.filter hasHash) (images.filter hasHash) [] hsome
  rw [hp] at ht
  simp only [hp]
  rw [show (total, ms).1 = total from rfl] at ht
  rw [ht]
  have hmap : (images.filter hasHash).map
      (fun b => 1 - ((bestImageLoop b (images.filter hasHash) (none, 64)).2 : ℚ) / 64) =
      List.replicate (images.filter hasHash).length 1 := by
    rw [List.eq_replicate_iff]
    refine ⟨List.length_map _ _, ?_⟩
    intro x hx
    obtain ⟨b, hb, hbx⟩ := List.mem_map.mp hx
    rw [← hbx, hd0 b hb]
    norm_num
  rw [hmap, List.sum_replicate, nsmul_eq_mul, mul_one]
  exact div_self (Nat.cast_ne_zero.mpr (fun h0 => hne (List.length_eq_zero.mp h0)))

theorem mem_keys_dictUpsert {α : Type} (key : String) (val : α) :
    ∀ (m : List (String × α)) (x : String),
      x ∈ (dictUpsert key val m).map Prod.fst ↔ x = key ∨ x ∈ m.map Prod.fst
  | [], x => by simp [dictUpsert]
  | (k, v) :: rest, x => by
    unfold dictUpsert
    by_cases h : k = key
    · rw [if_pos h]
      subst h
      simp
    · rw [if_neg h]
      simp only [List.map_cons, List.mem_cons]
      rw [mem_keys_dictUpsert key val rest x]
      tauto

theorem dictUpsert_keys_nodup {α : Type} (key : String) (val : α) :
    ∀ m : List (String × α), (m.map Prod.fst).Nodup →
      ((dictUpsert key val m).map Prod.fst).Nodup
  | [], _ => by simp [dictUpsert]
  | (k, v) :: rest, hnd => by
    unfold dictUpsert
    simp only [List.map_cons] at hnd
    obtain ⟨hknot, hnd2⟩ := List.nodup_cons.mp hnd
    by_cases h : k = key
    · rw [if_pos h]
      simp only [List.map_cons]
      exact List.nodup_cons.mpr ⟨by rw [← h]; exact hknot, hnd2⟩
    · rw [if_neg h]
      simp only [List.map_cons]
      refine List.nodup_cons.mpr ⟨?_, dictUpsert_keys_nodup key val rest hnd2⟩
      intro hmem
      rcases (mem_keys_dictUpsert key val rest k).mp hmem with rfl | hmem2
      · exact h rfl
      · exact hknot hmem2

theorem foldl_upsert_keys_nodup :
    ∀ (l : List StructureSignature) (acc : List (String × StructureSignature)),
      (acc.map Prod.fst).Nodup →
      ((l.foldl (fun m sig => dictUpsert (canonical_path sig.page_url) sig m) acc).map
        Prod.fst).Nodup
  | [], _, h => h
  | sig :: rest, acc, h =>
    foldl_upsert_keys_nodup rest _ (dictUpsert_keys_nodup _ _ acc h)

theorem structMap_keys_nodup (structures : List StructureSignature) :
    ((structMap structures).map Prod.fst).Nodup :=
  foldl_upsert_keys_nodup structures [] (by simp)

theorem lookup_mem_nodup {β : Type} :
    ∀ (M : List (String × β)), (M.map Prod.fst).Nodup →
      ∀ p ∈ M, M.lookup p.1 = some p.2
  | [], _, p, hp => absurd hp (List.not_mem_nil p)
  | (k, v) :: rest, hnd, p, hp => by
    simp only [List.map_cons] at hnd
    obtain ⟨hknot, hnd2⟩ := List.nodup_cons.mp hnd
    rw [List.lookup_cons]
    rcases List.mem_cons.mp hp with rfl | hp2
    · simp
    · have hk : p.1 ≠ k := by
        intro he
        exact hknot (he ▸ List.mem_map_of_mem Prod.fst hp2)
      rw [show (p.1 == k) = false from beq_eq_false_iff_ne.mpr hk]
      exact lookup_mem_nodup rest hnd2 p hp2

theorem jaccardSimilarity_self (t : List String) (h : t ≠ []) :
    jaccardSimilarity t t = 1 := by
  unfold jaccardSimilarity
  have hne : t.toFinset ≠ ∅ := by
    simp [h]
  rw [if_neg (by simp [hne])]
  rw [Finset.inter_self, Finset.union_self]
  rw [if_pos (Finset.card_ne_zero.mpr (by
    rcases t with _ | ⟨a, r⟩
    · exact absurd rfl h
    · exact ⟨a, by simp⟩))]
  exact div_self (Nat.cast_ne_zero.mpr (Finset.card_ne_zero.mpr (by
    rcases t with _ | ⟨a, r⟩
    · exact absurd rfl h
    · exact ⟨a, by simp⟩)))

theorem structureScan_self (cfg : ComparisonConfig)
    (M : List (String × StructureSignature)) :
    ∀ sub : List (String × StructureSignature),
      (∀ p ∈ sub, M.lookup p.1 = some p.2 ∧ p.2.tag_sequence ≠ []) →
      (structureScan cfg M sub).1 = List.replicate sub.length (1 : ℚ)
  | [], _ => rfl
  | (path, sig) :: rest, h => by
    obtain ⟨hl, htag⟩ := h (path, sig) (List.mem_cons_self _ _)
    unfold structureScan
    rw [show List.lookup path M = some sig from hl]
    rcases hs : structureScan cfg M rest with ⟨scores, ms⟩
    have hrec := structureScan_self cfg M rest
      (fun p hp => h p (List.mem_cons_of_mem _ hp))
    rw [hs] at hrec
    simp only [hs]
    rw [show ((scores, ms) : List ℚ × List StructureMatch).1 = scores from rfl] at hrec
    simp only [List.length_cons]
    rw [jaccardSimilarity_self sig.tag_sequence htag, hrec]
    rfl

theorem compareStructure_self (cfg : ComparisonConfig)
    (structures : List StructureSignature)
    (hne : structMap structures ≠ [])
    (htag : ∀ p ∈ structMap structures, p.2.tag_sequence ≠ []) :
    (compareStructure cfg structures structures).1 = 1 := by
  have hscan := structureScan_self cfg (structMap structures) (structMap structures)
    (fun p hp => ⟨lookup_mem_nodup (structMap structures) (structMap_keys_nodup structures) p hp,
      htag p hp⟩)
  unfold compareStructure
  rcases hp : structureScan cfg (structMap structures) (structMap structures)
    with ⟨scores, ms⟩
  rw [hp] at hscan
  simp only [hp]
  rw [show ((scores, ms) : List ℚ × List StructureMatch).1 = scores from rfl] at hscan
  have hlen : (structMap structures).length ≠ 0 :=
    fun h0 => hne (List.length_eq_zero.mp h0)
  rw [hscan]
  rw [if_pos (by
    intro hrep
    exact hlen (by simpa using congrArg List.length hrep))]
  rw [List.sum_replicate, List.length_replicate, nsmul_eq_mul, mul_one]
  exact div_self (Nat.cast_ne_zero.mpr hlen)

theorem overallScore_ones (cfg : ComparisonConfig)
    (hw : cfg.weight_text + cfg.weight_images + cfg.weight_structure ≠ 0) :
    overallScore cfg 1 1 1 = 1 := by
  unfold overallScore normalised_weights
  rw [if_neg hw]
  simp only [one_mul]
  rw [div_add_div_same, div_add_div_same]
  exact div_self hw

/-- C3 (amended): comparing a site's artifacts against an identical copy
yields text, image, structure and overall scores 1, provided each channel
has content to compare: at least one tokenisable base text artifact, a
nonempty list of hashed images all carrying well-formed 64-bit hashes, a
nonempty path map whose signatures have nonempty tag sequences, and a
nonzero weight total.  (Without these provisos the claim fails: an empty
channel scores 0, see the counterexample.) -/
theorem C3_self_compare (cfg : ComparisonConfig) (A : SiteArtifacts)
    (htxt : prepareTextEntries A.texts ≠ [])
    (himg : A.images.filter hasHash ≠ [])
    (hiv : ∀ img ∈ A.images.filter hasHash, ValidHash img)
    (hstr : structMap A.structures ≠ [])
    (htag : ∀ p ∈ structMap A.structures, p.2.tag_sequence ≠ [])
    (hw : cfg.weight_text + cfg.weight_images + cfg.weight_structure ≠ 0) :
    (Comparer.compare cfg A A).breakdown = ⟨1, 1, 1, 1⟩ := by
  have ht := compareText_self cfg A.texts htxt
  have hi := compareImages_self cfg A.images hiv himg
  have hs := compareStructure_self cfg A.structures hstr htag
  unfold Comparer.compare
  rcases hpt : compareText cfg A.texts A.texts with ⟨ts, tms⟩
  rcases hpi : compareImages cfg A.images A.images with ⟨isc, ims⟩
  rcases hps : compareStructure cfg A.structures A.structures with ⟨ss, sms⟩
  rw [hpt] at ht
  rw [hpi] at hi
  rw [hps] at hs
  have ht2 : ts = 1 := ht
  have hi2 : isc = 1 := hi
  have hs2 : ss = 1 := hs
  subst ht2 hi2 hs2
  simp only [hpt, hpi, hps]
  rw [overallScore_ones cfg hw]

/-- C3 counterexample: a site with no extracted artifacts is identical to
itself, yet every channel scores 0, not 1 — the unqualified claim fails for
empty channels.  (Each channel returns 0 when it has nothing to compare.) -/
theorem C3_self_compare_counterexample :
    (Comparer.compare {} ⟨⟨"https://legit", [], []⟩, [], [], []⟩
      ⟨⟨"https://legit", [], []⟩, [], [], []⟩).breakdown.text_score ≠ 1 := by
  have ht : compareText {} ([] : List TextArtifact) [] = (0, []) := rfl
  unfold Comparer.compare
  simp only [show (⟨⟨"https://legit", [], []⟩, [], [], []⟩ : SiteArtifacts).texts = []
      from rfl, ht]
  norm_num

/-- C3 witness: a one-page site with one text, one hashed image and one
structure signature, compared against itself under the default
configuration. -/
theorem C3_self_compare_witness :
    (Comparer.compare {}
      ⟨⟨"https://legit", [], []⟩,
        [⟨"https://legit", "body/p", "secure portal", 2, []⟩],
        [⟨"https://legit", "https://legit/logo.png", some "ffffffffffffffff", some 10,
          some "image/png"⟩],
        [⟨"https://legit", 0, ["html", "body"]⟩]⟩
      ⟨⟨"https://legit", [], []⟩,
        [⟨"https://legit", "body/p", "secure portal", 2, []⟩],
        [⟨"https://legit", "https://legit/logo.png", some "ffffffffffffffff", some 10,
          some "image/png"⟩],
        [⟨"https://legit", 0, ["html", "body"]⟩]⟩).breakdown = ⟨1, 1, 1, 1⟩ :=
  C3_self_compare {} _ (by decide) (by decide)
    (by
      intro img hi
      refine ⟨"ffffffffffffffff", ?_, by decide, by decide⟩
      have : img = ⟨"https://legit", "https://legit/logo.png", some "ffffffffffffffff",
          some 10, some "image/png"⟩ := by
        simpa [hasHash] using hi
      rw [this])
    (by decide) (by decide) (show (2/5 + 2/5 + 1/5 : ℚ) ≠ 0 by norm_num)

/-! ### Crawl bounds: claim C1 -/

theorem crawlSerialGo_inv (cfg : CrawlConfig) (site : Site) :
    ∀ (fuel : Nat) (st : SerialState),
      st.snapshots.length ≤ cfg.max_pages →
      (∀ sn ∈ st.snapshots, sn.depth ≤ cfg.max_depth) →
      (st.snapshots.map PageSnapshot.url).Nodup →
      (∀ sn ∈ st.snapshots, sn.url ∈ st.visited) →
      (crawlSerialGo cfg site fuel st).snapshots.length ≤ cfg.max_pages ∧
        (∀ sn ∈ (crawlSerialGo cfg site fuel st).snapshots, sn.depth ≤ cfg.max_depth) ∧
        ((crawlSerialGo cfg site fuel st).snapshots.map PageSnapshot.url).Nodup
  | 0, st, h1, h2, h3, _ => ⟨h1, h2, h3⟩
  | fuel + 1, st, h1, h2, h3, h4 => by
    unfold crawlSerialGo
    by_cases hg : st.queue ≠ [] ∧ st.snapshots.length < cfg.max_pages
    · rw [if_pos hg]
      rcases hq : st.queue with _ | ⟨⟨url, depth⟩, rest⟩
      · simp only [hq]
        exact ⟨h1, h2, h3⟩
      · simp only [hq]
        by_cases hv : normalize_url url ∈ st.visited
        · rw [if_pos hv]
          exact crawlSerialGo_inv cfg site fuel _ h1 h2 h3 h4
        · rw [if_neg hv]
          by_cases hd : depth > cfg.max_depth
          · rw [if_pos hd]
            exact crawlSerialGo_inv cfg site fuel _ h1 h2 h3
              (fun sn hsn => List.mem_cons_of_mem _ (h4 sn hsn))
          · rw [if_neg hd]
            rcases hf : site.fetch (normalize_url url)
              with exc | ⟨status_code, content_type, body⟩
            · simp only [hf]
              exact crawlSerialGo_inv cfg site fuel _ h1 h2 h3
                (fun sn hsn => List.mem_cons_of_mem _ (h4 sn hsn))
            · simp only [hf]
              apply crawlSerialGo_inv cfg site fuel
              · simp only [List.length_append, List.length_cons, List.length_nil]
                omega
              · intro sn hsn
                rcases List.mem_append.mp hsn with hold | hnew
                · exact h2 sn hold
                · rw [List.mem_singleton.mp hnew]
                  show depth ≤ cfg.max_depth
                  omega
              · rw [List.map_append]
                rw [List.nodup_append]
                refine ⟨h3, List.nodup_singleton _, ?_⟩
                intro x hx hx2
                rw [List.map_cons, List.map_nil, List.mem_singleton] at hx2
                subst hx2
                obtain ⟨sn, hsn, hurl⟩ := List.mem_map.mp hx
                have hurl2 : sn.url = normalize_url url := hurl
                exact hv (hurl2 ▸ h4 sn hsn)
              · intro sn hsn
                rcases List.mem_append.mp hsn with hold | hnew
                · exact List.mem_cons_of_mem _ (h4 sn hold)
                · rw [List.mem_singleton.mp hnew]
                  show normalize_url url ∈ _
                  exact List.mem_cons_self _ _
    · rw [if_neg hg]
      exact ⟨h1, h2, h3⟩

/-- Concatenation of the in-flight canonical URLs of a worker pool. -/
def inflightOf : List WPhase → List String
  | [] => []
  | w :: ws => inflightUrls w ++ inflightOf ws

theorem inflightOf_append : ∀ a b : List WPhase,
    inflightOf (a ++ b) = inflightOf a ++ inflightOf b
  | [], _ => rfl
  | w :: ws, b => by
    show inflightUrls w ++ inflightOf (ws ++ b) =
      (inflightUrls w ++ inflightOf ws) ++ inflightOf b
    rw [inflightOf_append ws b, List.append_assoc]

theorem inflightOf_middle (ws₁ ws₂ : List WPhase) (w : WPhase) :
    inflightOf (ws₁ ++ w :: ws₂) =
      inflightOf ws₁ ++ (inflightUrls w ++ inflightOf ws₂) := by
  rw [inflightOf_append]
  rfl

theorem inflight_idle : inflightUrls .idle = [] := rfl

theorem inflight_got (u : String) (d : Nat) : inflightUrls (.got u d) = [] := rfl

theorem inflight_done : inflightUrls .done = [] := rfl

theorem inflight_claimed (u : String) (d : Nat) : inflightUrls (.claimed u d) = [u] := rfl

theorem inflight_fetched (snap : PageSnapshot) (pending : List (String × Nat)) :
    inflightUrls (.fetched snap pending) = [snap.url] := rfl

theorem perm_insert_middle {α : Type} (M A B : List α) (a : α) :
    (M ++ (A ++ a :: B)).Perm (a :: (M ++ (A ++ B))) :=
  (List.Perm.append_left M List.perm_middle).trans List.perm_middle

theorem mem_frame_swap {w w' : WPhase} {f : WPhase} {ws₁ ws₂ : List WPhase}
    (hne : f ≠ w') (hm : f ∈ ws₁ ++ w' :: ws₂) : f ∈ ws₁ ++ w :: ws₂ := by
  simp only [List.mem_append, List.mem_cons] at hm ⊢
  rcases hm with hm | hm | hm
  · exact Or.inl hm
  · exact absurd hm hne
  · exact Or.inr (Or.inr hm)

/-- Invariant of the parallel crawl: the page bound, the depth bound on
stored snapshots and on built-but-unstored ones, and — key to uniqueness —
that stored snapshot URLs together with the in-flight URLs are pairwise
distinct and all recorded in `visited`. -/
def PInv (cfg : CrawlConfig) (st : PState) : Prop :=
  st.snapshots.length ≤ cfg.max_pages ∧
  (∀ sn ∈ st.snapshots, sn.depth ≤ cfg.max_depth) ∧
  (st.snapshots.map PageSnapshot.url ++ inflightOf st.workers).Nodup ∧
  (∀ u ∈ st.snapshots.map PageSnapshot.url ++ inflightOf st.workers, u ∈ st.visited) ∧
  (∀ snap pending, WPhase.fetched snap pending ∈ st.workers → snap.depth ≤ cfg.max_depth)

theorem inflightOf_replicate_idle : ∀ n : Nat, inflightOf (List.replicate n .idle) = []
  | 0 => rfl
  | n + 1 => by
    simp only [List.replicate, inflightOf, inflight_idle, List.nil_append]
    exact inflightOf_replicate_idle n

theorem PInv_init (cfg : CrawlConfig) : PInv cfg (initPState cfg) := by
  refine ⟨by simp [initPState], by simp [initPState], ?_, ?_, ?_⟩
  · show (([] : List PageSnapshot).map PageSnapshot.url ++
      inflightOf (List.replicate cfg.page_concurrency .idle)).Nodup
    rw [inflightOf_replicate_idle]
    simp
  · intro u hu
    rw [show (initPState cfg).workers = List.replicate cfg.page_concurrency .idle from rfl,
      inflightOf_replicate_idle] at hu
    simp [initPState] at hu
  · intro snap pending hm
    rw [show (initPState cfg).workers = List.replicate cfg.page_concurrency .idle from rfl]
      at hm
    exact absurd (List.eq_of_mem_replicate hm) (by simp)

theorem PInv_step (cfg : CrawlConfig) (site : Site) {st st' : PState}
    (h : PStep cfg site st st') (hinv : PInv cfg st) : PInv cfg st' := by
  obtain ⟨h1, h2, h3, h4, h5⟩ := hinv
  cases h with
  | get item q v s e c ws₁ ws₂ =>
    refine ⟨h1, h2, ?_, ?_, ?_⟩
    · simp only [inflightOf_middle, inflight_idle, inflight_got, List.nil_append] at h3 ⊢
      exact h3
    · simp only [inflightOf_middle, inflight_idle, inflight_got, List.nil_append] at h4 ⊢
      exact h4
    · intro snap pending hm
      exact h5 snap pending (mem_frame_swap (by simp) hm)
  | dropCompleted u d q v s e ws₁ ws₂ =>
    refine ⟨h1, h2, ?_, ?_, ?_⟩
    · simp only [inflightOf_middle, inflight_idle, inflight_got, List.nil_append] at h3 ⊢
      exact h3
    · simp only [inflightOf_middle, inflight_idle, inflight_got, List.nil_append] at h4 ⊢
      exact h4
    · intro snap pending hm
      exact h5 snap pending (mem_frame_swap (by simp) hm)
  | dropVisited u d q v s e ws₁ ws₂ hv =>
    refine ⟨h1, h2, ?_, ?_, ?_⟩
    · simp only [inflightOf_middle, inflight_idle, inflight_got, List.nil_append] at h3 ⊢
      exact h3
    · simp only [inflightOf_middle, inflight_idle, inflight_got, List.nil_append] at h4 ⊢
      exact h4
    · intro snap pending hm
      exact h5 snap pending (mem_frame_swap (by simp) hm)
  | claim u d q v s e ws₁ ws₂ hv =>
    have h3' : (s.map PageSnapshot.url ++
        (inflightOf ws₁ ++ inflightOf ws₂)).Nodup := by
      simp only [inflightOf_middle, inflight_got, List.nil_append] at h3
      exact h3
    have h4' : ∀ x ∈ s.map PageSnapshot.url ++ (inflightOf ws₁ ++ inflightOf ws₂),
        x ∈ v := by
      simp only [inflightOf_middle, inflight_got, List.nil_append] at h4
      exact h4
    have hperm := perm_insert_middle (s.map PageSnapshot.url) (inflightOf ws₁)
      (inflightOf ws₂) (normalize_url u)
    refine ⟨h1, h2, ?_, ?_, ?_⟩
    · simp only [inflightOf_middle, inflight_claimed, List.singleton_append]
      exact (List.Perm.nodup_iff hperm).mpr
        (List.nodup_cons.mpr ⟨fun hmem => hv (h4' _ hmem), h3'⟩)
    · intro x hx
      simp only [inflightOf_middle, inflight_claimed, List.singleton_append] at hx
      rcases List.mem_cons.mp (hperm.mem_iff.mp hx) with rfl | hx2
      · exact List.mem_cons_self _ _
      · exact List.mem_cons_of_mem _ (h4' x hx2)
    · intro snap pending hm
      exact h5 snap pending (mem_frame_swap (by simp) hm)
  | depthSkip u d q v s e c ws₁ ws₂ hd =>
    have h3' : (s.map PageSnapshot.url ++
        (inflightOf ws₁ ++ u :: inflightOf ws₂)).Nodup := by
      simp only [inflightOf_middle, inflight_claimed, List.singleton_append] at h3
      exact h3
    have h4' : ∀ x ∈ s.map PageSnapshot.url ++ (inflightOf ws₁ ++ u :: inflightOf ws₂),
        x ∈ v := by
      simp only [inflightOf_middle, inflight_claimed, List.singleton_append] at h4
      exact h4
    have hperm := perm_insert_middle (s.map PageSnapshot.url) (inflightOf ws₁)
      (inflightOf ws₂) u
    refine ⟨h1, h2, ?_, ?_, ?_⟩
    · simp only [inflightOf_middle, inflight_idle, List.nil_append]
      exact (List.nodup_cons.mp ((List.Perm.nodup_iff hperm).mp h3')).2
    · intro x hx
      simp only [inflightOf_middle, inflight_idle, List.nil_append] at hx
      exact h4' x (hperm.mem_iff.mpr (List.mem_cons_of_mem _ hx))
    · intro snap pending hm
      exact h5 snap pending (mem_frame_swap (by simp) hm)
  | fetchErr u d q v s e c ws₁ ws₂ exc hd hf =>
    have h3' : (s.map PageSnapshot.url ++
        (inflightOf ws₁ ++ u :: inflightOf ws₂)).Nodup := by
      simp only [inflightOf_middle, inflight_claimed, List.singleton_append] at h3
      exact h3
    have h4' : ∀ x ∈ s.map PageSnapshot.url ++ (inflightOf ws₁ ++ u :: inflightOf ws₂),
        x ∈ v := by
      simp only [inflightOf_middle, inflight_claimed, List.singleton_append] at h4
      exact h4
    have hperm := perm_insert_middle (s.map PageSnapshot.url) (inflightOf ws₁)
      (inflightOf ws₂) u
    refine ⟨h1, h2, ?_, ?_, ?_⟩
    · simp only [inflightOf_middle, inflight_idle, List.nil_append]
      exact (List.nodup_cons.mp ((List.Perm.nodup_iff hperm).mp h3')).2
    · intro x hx
      simp only [inflightOf_middle, inflight_idle, List.nil_append] at hx
      exact h4' x (hperm.mem_iff.mpr (List.mem_cons_of_mem _ hx))
    · intro snap pending hm
      exact h5 snap pending (mem_frame_swap (by simp) hm)
  | fetchOk u d q v s e c ws₁ ws₂ status_code content_type body hd hf =>
    refine ⟨h1, h2, ?_, ?_, ?_⟩
    · simp only [inflightOf_middle, inflight_claimed, inflight_fetched,
        List.singleton_append] at h3 ⊢
      exact h3
    · simp only [inflightOf_middle, inflight_claimed, inflight_fetched,
        List.singleton_append] at h4 ⊢
      exact h4
    · intro snap pending hm
      simp only [List.mem_append, List.mem_cons] at hm
      rcases hm with hm | hm | hm
      · exact h5 snap pending (List.mem_append.mpr (Or.inl hm))
      · injection hm with hsnap hpend
        subst hsnap
        show d ≤ cfg.max_depth
        exact hd
      · exact h5 snap pending
          (List.mem_append.mpr (Or.inr (List.mem_cons_of_mem _ hm)))
  | enqPut snap0 l ls q v s e ws₁ ws₂ =>
    refine ⟨h1, h2, ?_, ?_, ?_⟩
    · simp only [inflightOf_middle, inflight_fetched, List.singleton_append] at h3 ⊢
      exact h3
    · simp only [inflightOf_middle, inflight_fetched, List.singleton_append] at h4 ⊢
      exact h4
    · intro snap pending hm
      simp only [List.mem_append, List.mem_cons] at hm
      rcases hm with hm | hm | hm
      · exact h5 snap pending (List.mem_append.mpr (Or.inl hm))
      · injection hm with hsnap hpend
        subst hsnap
        exact h5 snap (l :: ls)
          (List.mem_append.mpr (Or.inr (List.mem_cons_self _ _)))
      · exact h5 snap pending
          (List.mem_append.mpr (Or.inr (List.mem_cons_of_mem _ hm)))
  | enqSkip snap0 l ls q v s e ws₁ ws₂ =>
    refine ⟨h1, h2, ?_, ?_, ?_⟩
    · simp only [inflightOf_middle, inflight_fetched, List.singleton_append] at h3 ⊢
      exact h3
    · simp only [inflightOf_middle, inflight_fetched, List.singleton_append] at h4 ⊢
      exact h4
    · intro snap pending hm
      simp only [List.mem_append, List.mem_cons] at hm
      rcases hm with hm | hm | hm
      · exact h5 snap pending (List.mem_append.mpr (Or.inl hm))
      · injection hm with hsnap hpend
        subst hsnap
        exact h5 snap (l :: ls)
          (List.mem_append.mpr (Or.inr (List.mem_cons_self _ _)))
      · exact h5 snap pending
          (List.mem_append.mpr (Or.inr (List.mem_cons_of_mem _ hm)))
  | appendOk snap q v s e c ws₁ ws₂ hs =>
    have h3' : (s.map PageSnapshot.url ++
        (inflightOf ws₁ ++ snap.url :: inflightOf ws₂)).Nodup := by
      simp only [inflightOf_middle, inflight_fetched, List.singleton_append] at h3
      exact h3
    have h4' : ∀ x ∈ s.map PageSnapshot.url ++
        (inflightOf ws₁ ++ snap.url :: inflightOf ws₂), x ∈ v := by
      simp only [inflightOf_middle, inflight_fetched, List.singleton_append] at h4
      exact h4
    have hperm := perm_insert_middle (s.map PageSnapshot.url) (inflightOf ws₁)
      (inflightOf ws₂) snap.url
    refine ⟨?_, ?_, ?_, ?_, ?_⟩
    · show (s ++ [snap]).length ≤ cfg.max_pages
      simp only [List.length_append, List.length_cons, List.length_nil]
      omega
    · intro sn hsn
      rcases List.mem_append.mp hsn with hold | hnew
      · exact h2 sn hold
      · rw [List.mem_singleton.mp hnew]
        exact h5 snap [] (List.mem_append.mpr (Or.inr (List.mem_cons_self _ _)))
    · simp only [inflightOf_middle, inflight_idle, List.nil_append, List.map_append,
        List.map_cons, List.map_nil, List.append_assoc, List.singleton_append]
      exact (List.Perm.nodup_iff List.perm_middle).mpr
        ((List.Perm.nodup_iff hperm).mp h3')
    · intro x hx
      simp only [inflightOf_middle, inflight_idle, List.nil_append, List.map_append,
        List.map_cons, List.map_nil, List.append_assoc, List.singleton_append] at hx
      exact h4' x (hperm.mem_iff.mpr (List.perm_middle.mem_iff.mp hx))
    · intro snap2 pending hm
      exact h5 snap2 pending (mem_frame_swap (by simp) hm)
  | appendFull snap q v s e c ws₁ ws₂ hs =>
    have h3' : (s.map PageSnapshot.url ++
        (inflightOf ws₁ ++ snap.url :: inflightOf ws₂)).Nodup := by
      simp only [inflightOf_middle, inflight_fetched, List.singleton_append] at h3
      exact h3
    have h4' : ∀ x ∈ s.map PageSnapshot.url ++
        (inflightOf ws₁ ++ snap.url :: inflightOf ws₂), x ∈ v := by
      simp only [inflightOf_middle, inflight_fetched, List.singleton_append] at h4
      exact h4
    have hperm := perm_insert_middle (s.map PageSnapshot.url) (inflightOf ws₁)
      (inflightOf ws₂) snap.url
    refine ⟨h1, h2, ?_, ?_, ?_⟩
    · simp only [inflightOf_middle, inflight_idle, List.nil_append]
      exact (List.nodup_cons.mp ((List.Perm.nodup_iff hperm).mp h3')).2
    · intro x hx
      simp only [inflightOf_middle, inflight_idle, List.nil_append] at hx
      exact h4' x (hperm.mem_iff.mpr (List.mem_cons_of_mem _ hx))
    · intro snap2 pending hm
      exact h5 snap2 pending (mem_frame_swap (by simp) hm)
  | exitWorker q v s e ws₁ ws₂ =>
    refine ⟨h1, h2, ?_, ?_, ?_⟩
    · simp only [inflightOf_middle, inflight_idle, inflight_done, List.nil_append]
        at h3 ⊢
      exact h3
    · simp only [inflightOf_middle, inflight_idle, inflight_done, List.nil_append]
        at h4 ⊢
      exact h4
    · intro snap pending hm
      exact h5 snap pending (mem_frame_swap (by simp) hm)
  | mainCompleted v s e ws hq =>
    exact ⟨h1, h2, h3, h4, h5⟩

theorem PReachable_inv (cfg : CrawlConfig) (site : Site) {st : PState}
    (h : PReachable cfg site st) : PInv cfg st := by
  unfold PReachable at h
  induction h with
  | refl => exact PInv_init cfg
  | tail hsteps hstep ih => exact PInv_step cfg site hstep ih

/-- C1: both crawl modes respect the crawl bounds, for every configuration
and every same-domain link graph: the serial loop (for every fuel, hence
for the terminating run) and every reachable state of the parallel worker
system return at most `max_pages` snapshots, no snapshot deeper than
`max_depth`, and no two snapshots with the same canonical URL. -/
theorem C1_crawl_bounds (cfg : CrawlConfig) (site : Site) :
    (∀ fuel : Nat,
      (crawlSerial cfg site fuel).snapshots.length ≤ cfg.max_pages ∧
      (∀ sn ∈ (crawlSerial cfg site fuel).snapshots, sn.depth ≤ cfg.max_depth) ∧
      ((crawlSerial cfg site fuel).snapshots.map PageSnapshot.url).Nodup) ∧
    (∀ st : PState, PReachable cfg site st →
      st.snapshots.length ≤ cfg.max_pages ∧
      (∀ sn ∈ st.snapshots, sn.depth ≤ cfg.max_depth) ∧
      (st.snapshots.map PageSnapshot.url).Nodup) := by
  constructor
  · intro fuel
    exact crawlSerialGo_inv cfg site fuel ⟨[(cfg.base_url, 0)], [], [], []⟩
      (by simp) (by simp) (by simp) (by simp)
  · intro st hreach
    obtain ⟨h1, h2, h3, _, _⟩ := PReachable_inv cfg site hreach
    exact ⟨h1, h2, h3.of_append_left⟩

/-- C1 witness: the default configuration on a site whose pages are empty,
at fuel 2 for the serial mode and at the initial state for the parallel
mode. -/
theorem C1_crawl_bounds_witness :
    (crawlSerial {base_url := "https://legit"}
        ⟨fun _ => Except.ok (200, none, ""), fun _ => [], fun _ l => l⟩
        2).snapshots.length ≤ ({base_url := "https://legit"} : CrawlConfig).max_pages ∧
    (initPState {base_url := "https://legit"}).snapshots.length ≤
      ({base_url := "https://legit"} : CrawlConfig).max_pages :=
  ⟨((C1_crawl_bounds {base_url := "https://legit"}
      ⟨fun _ => Except.ok (200, none, ""), fun _ => [], fun _ l => l⟩).1 2).1,
   ((C1_crawl_bounds {base_url := "https://legit"}
      ⟨fun _ => Except.ok (200, none, ""), fun _ => [], fun _ l => l⟩).2
      (initPState {base_url := "https://legit"}) Relation.ReflTransGen.refl).1⟩
